import Mathlib

set_option maxRecDepth 8192

namespace Red

/-!
Shallow embedding of the Red bot's configuration and structured-logging
runtime: the `NoEmptyLineWriter` sink wrapper, the fern dispatch tree built in
`src/bot/utils/log/logger.rs`, the log-rotation pass of
`src/bot/utils/log/logrotate.rs`, and the config sanitisation and validation of
`src/bot/utils/config.rs`.
-/

/-! ## Rust character primitives used by the logging pipeline -/

/-- The Unicode White_Space code points: Rust's `char::is_whitespace`, which
underlies `str::trim` in the log writer. -/
def rustIsWhitespace (c : Char) : Bool :=
  c.toNat == 9 || c.toNat == 10 || c.toNat == 11 || c.toNat == 12 ||
  c.toNat == 13 || c.toNat == 32 || c.toNat == 133 || c.toNat == 160 ||
  c.toNat == 5760 || (decide (8192 ≤ c.toNat) && decide (c.toNat ≤ 8202)) ||
  c.toNat == 8232 || c.toNat == 8233 || c.toNat == 8239 || c.toNat == 8287 ||
  c.toNat == 12288

/-- `str::trim` on a buffered line (drop leading and trailing whitespace). -/
def trimL (l : List Char) : List Char :=
  (((l.dropWhile rustIsWhitespace).reverse).dropWhile rustIsWhitespace).reverse

/-- `line.trim().is_empty()` as used by `NoEmptyLineWriter`. -/
def trimIsEmpty (l : List Char) : Bool := (trimL l).isEmpty

/-! ## The `NoEmptyLineWriter` wrapper (logger.rs lines 14-56)

The wrapper buffers bytes, drains each completed line (up to and including the
newline), forwards it to the inner writer only when its trimmed form is
non-empty, and on flush applies the same rule to the residual tail. -/

structure NoEmptyLineWriter where
  buffer : List Char
  emitted : List (List Char)

/-- Split a buffer into the completed lines (each including its terminating
newline, in order) and the residual tail that contains no newline: the
repeated drain-one-line loop of `NoEmptyLineWriter::write`. -/
def splitLines : List Char → List (List Char) × List Char
  | [] => ([], [])
  | c :: cs =>
    let r := splitLines cs
    if c = '\n' then ([c] :: r.1, r.2)
    else
      match r.1 with
      | [] => ([], c :: r.2)
      | l :: ls => ((c :: l) :: ls, r.2)

/-- One call to `NoEmptyLineWriter::write`: append to the buffer, then drain
every completed line, forwarding it iff its trimmed form is non-empty. -/
def writeChunk (w : NoEmptyLineWriter) (buf : List Char) : NoEmptyLineWriter :=
  let r := splitLines (w.buffer ++ buf)
  { buffer := r.2, emitted := w.emitted ++ r.1.filter (fun l => !trimIsEmpty l) }

/-- `NoEmptyLineWriter::flush`: forward the residual tail iff its trimmed form
is non-empty, then clear the buffer. -/
def flushW (w : NoEmptyLineWriter) : NoEmptyLineWriter :=
  { buffer := [],
    emitted := w.emitted ++ if trimIsEmpty w.buffer then [] else [w.buffer] }

def emptyW : NoEmptyLineWriter := ⟨[], []⟩

/-- A sequence of `write` calls starting from a fresh wrapper. -/
def runWrites (ws : List (List Char)) : NoEmptyLineWriter :=
  ws.foldl writeChunk emptyW

/-! ## Log records and the fern dispatch built by `init_logger_with_config`
(logger.rs lines 113-239) -/

/-- `log::Level` with the log crate's discriminants `Error = 1 .. Trace = 5`.
The crate's `Ord` compares these numbers, so `Error < Warn < Info < Debug <
Trace` (more verbose is greater). -/
inductive LogLevel
  | error
  | warn
  | info
  | debug
  | trace
deriving DecidableEq

def LogLevel.toUsize : LogLevel → Nat
  | .error => 1
  | .warn => 2
  | .info => 3
  | .debug => 4
  | .trace => 5

/-- `log::LevelFilter`, discriminants `Off = 0 .. Trace = 5`. -/
inductive LevelFilterV
  | off
  | error
  | warn
  | info
  | debug
  | trace
deriving DecidableEq

def LevelFilterV.toUsize : LevelFilterV → Nat
  | .off => 0
  | .error => 1
  | .warn => 2
  | .info => 3
  | .debug => 4
  | .trace => 5

/-- fern's `Dispatch::level(f)` forwards a record iff its level is at most `f`
in the log crate's ordering. -/
def levelPasses (l : LogLevel) (f : LevelFilterV) : Bool :=
  decide (l.toUsize ≤ f.toUsize)

/-- A log record: severity, target and message (timestamps are attached at
formatting time). Text is modelled as its character sequence. -/
structure LogRecord where
  level : LogLevel
  target : List Char
  message : List Char

/-- The fixed closed set of heartbeat tokens of `is_heartbeat`
(logger.rs lines 70-86). -/
def HEARTBEAT_WORDS : List (List Char) :=
  ["into_future;".data, "start;".data, "shutdown_all;".data, "initialize;".data,
   "run;".data, "latency;".data, "check_last_start;".data, "recv;".data,
   "do_heartbeat;".data, "recv_event;".data, "resume;".data,
   "update_manager;".data, "action;".data, "identify;".data, "heartbeat;".data]

/-- `is_heartbeat` (logger.rs lines 69-89): the rendered message must be
EXACTLY one of the heartbeat words; the source performs no trimming. -/
def is_heartbeat (r : LogRecord) : Bool := HEARTBEAT_WORDS.contains r.message

def levelDisplay : LogLevel → List Char
  | .error => "ERROR".data
  | .warn => "WARN".data
  | .info => "INFO".data
  | .debug => "DEBUG".data
  | .trace => "TRACE".data

/-- `colorize_level`: the colored crate brackets the level word in ANSI SGR
escapes; the escapes never make the text empty or all-whitespace, which is all
the delivery claims depend on, so they are omitted here. -/
def colorize_level (l : LogLevel) : List Char := levelDisplay l

/-- The `"{} [{}] {}"` layout shared by every formatter. -/
def fmtLine (ts lvl msg : List Char) : List Char :=
  ts ++ (' ' :: '[' :: lvl) ++ (']' :: ' ' :: msg)

/-- logger.rs lines 131-143. -/
def non_serenity_console_format (ts : List Char) (r : LogRecord) : List Char :=
  if is_heartbeat r then [] else fmtLine ts (colorize_level r.level) r.message

/-- logger.rs lines 146-157. -/
def non_serenity_file_format (ts : List Char) (r : LogRecord) : List Char :=
  if is_heartbeat r then [] else fmtLine ts (levelDisplay r.level) r.message

/-- logger.rs lines 160-168 (used by the serenity chain). -/
def file_format (ts : List Char) (r : LogRecord) : List Char :=
  fmtLine ts (levelDisplay r.level) r.message

/-- logger.rs lines 171-182. -/
def heartbeat_file_format (ts : List Char) (r : LogRecord) : List Char :=
  if !(r.target == "heartbeat".data) && !is_heartbeat r then []
  else fmtLine ts (levelDisplay r.level) r.message

/-- logger.rs line 185. -/
def non_serenity_filter (r : LogRecord) : Bool :=
  !("serenity".data.isPrefixOf r.target)

/-- logger.rs lines 186-188: `metadata.target().starts_with("serenity") &&
metadata.level() >= Level::Warn`, where `>=` is the log crate's derived
ordering on the discriminants `Error = 1 .. Trace = 5`. -/
def serenity_filter (r : LogRecord) : Bool :=
  "serenity".data.isPrefixOf r.target &&
    decide (LogLevel.warn.toUsize ≤ r.level.toUsize)

/-- fern writes the formatted record followed by a line separator `"\n"` to
the chained writer; the sink receives the record iff its `NoEmptyLineWriter`
forwards anything for it. -/
def sinkForwards (line : List Char) : Bool :=
  !(writeChunk emptyW (line ++ [ '\n' ])).emitted.isEmpty

/-- Rust `str::to_lowercase` restricted to the ASCII range, which is all the
configuration strings use. -/
def rustToLowerChar (c : Char) : Char :=
  if 65 ≤ c.toNat ∧ c.toNat ≤ 90 then Char.ofNat (c.toNat + 32) else c

def rustToLower (s : List Char) : List Char := s.map rustToLowerChar

/-- logger.rs lines 115-122: translate `config.logging.log_level` into the
global threshold (unrecognised strings fall back to `Info`). -/
def log_level_from_config (s : List Char) : LevelFilterV :=
  if rustToLower s = "error".data then .error
  else if rustToLower s = "warn".data then .warn
  else if rustToLower s = "info".data then .info
  else if rustToLower s = "debug".data then .debug
  else if rustToLower s = "trace".data then .trace
  else .info

/-- The part of the configuration the dispatcher reads. -/
structure LoggerConfig where
  log_level : List Char
  extra_logs : Bool

/-- The console chain (lines 225-230): global threshold, non-serenity filter,
console format, wrapped stdout. -/
def consoleReceives (cfg : LoggerConfig) (ts : List Char) (r : LogRecord) : Bool :=
  levelPasses r.level (log_level_from_config cfg.log_level) &&
    non_serenity_filter r && sinkForwards (non_serenity_console_format ts r)

/-- The `red.log` chain (lines 219-224). -/
def redLogReceives (cfg : LoggerConfig) (ts : List Char) (r : LogRecord) : Bool :=
  levelPasses r.level (log_level_from_config cfg.log_level) &&
    non_serenity_filter r && sinkForwards (non_serenity_file_format ts r)

/-- The `serenity.log` chain (lines 196-205), present only when `extra_logs`. -/
def serenityLogReceives (cfg : LoggerConfig) (ts : List Char) (r : LogRecord) : Bool :=
  cfg.extra_logs && levelPasses r.level (log_level_from_config cfg.log_level) &&
    serenity_filter r && sinkForwards (file_format ts r)

/-- The `heartbeat.log` chain (lines 206-214): no filter, only the format
gate, present only when `extra_logs`. -/
def heartbeatLogReceives (cfg : LoggerConfig) (ts : List Char) (r : LogRecord) : Bool :=
  cfg.extra_logs && levelPasses r.level (log_level_from_config cfg.log_level) &&
    sinkForwards (heartbeat_file_format ts r)

/-! ## Calendar dates (chrono `NaiveDate`) -/

/-- A proleptic-Gregorian calendar date. -/
structure NDate where
  y : Nat
  m : Nat
  d : Nat
deriving DecidableEq

def isLeapYear (y : Nat) : Bool :=
  (y % 4 == 0 && y % 100 != 0) || y % 400 == 0

def daysInMonth (y m : Nat) : Nat :=
  if m = 2 then (if isLeapYear y then 29 else 28)
  else if m = 4 ∨ m = 6 ∨ m = 9 ∨ m = 11 then 30
  else 31

def isValidYmd (y m d : Nat) : Bool :=
  decide (1 ≤ m) && decide (m ≤ 12) && decide (1 ≤ d) &&
    decide (d ≤ daysInMonth y m)

/-- Days since 1970-01-01 (the standard `days_from_civil` day count; chrono's
`NaiveDate` subtraction `today.signed_duration_since(dir_date)` yields exactly
this difference in whole days). -/
def daysFromCivil (dt : NDate) : Int :=
  let y : Int := if dt.m ≤ 2 then (dt.y : Int) - 1 else (dt.y : Int)
  let era : Int := Int.fdiv y 400
  let yoe : Int := y - era * 400
  let mp : Int := ((dt.m : Int) + 9) % 12
  let doy : Int := (153 * mp + 2) / 5 + (dt.d : Int) - 1
  let doe : Int := yoe * 365 + yoe / 4 - yoe / 100 + doy
  era * 146097 + doe - 719468

def digitChar (n : Nat) : Char := Char.ofNat (48 + n % 10)

def twoDigits (n : Nat) : List Char := [digitChar (n / 10), digitChar n]

def fourDigits (n : Nat) : List Char :=
  [digitChar (n / 1000), digitChar (n / 100), digitChar (n / 10), digitChar n]

/-- chrono's `%Y-%m-%d` rendering (years up to 9999 print as four zero-padded
digits, months and days as two), used both for the day-partition directory
name and by `Local::now().date_naive()`. -/
def formatDate (dt : NDate) : List Char :=
  fourDigits dt.y ++ ('-' :: twoDigits dt.m) ++ ('-' :: twoDigits dt.d)

def digitVal (c : Char) : Option Nat :=
  if 48 ≤ c.toNat ∧ c.toNat ≤ 57 then some (c.toNat - 48) else none

def parseNatAux : Nat → List Char → Option Nat
  | acc, [] => some acc
  | acc, c :: cs =>
    match digitVal c with
    | some v => parseNatAux (acc * 10 + v) cs
    | none => none

def parseNatL : List Char → Option Nat
  | [] => none
  | c :: cs => parseNatAux 0 (c :: cs)

def splitDash : List Char → List (List Char)
  | [] => [[]]
  | c :: cs =>
    match splitDash cs with
    | [] => [[]]
    | g :: gs => if c = '-' then [] :: g :: gs else (c :: g) :: gs

def parseDate3 (ys ms ds : List Char) : Option NDate :=
  match parseNatL ys, parseNatL ms, parseNatL ds with
  | some y, some m, some d =>
    if isValidYmd y m d then some ⟨y, m, d⟩ else none
  | _, _, _ => none

/-- chrono `NaiveDate::parse_from_str(name, "%Y-%m-%d")`
(logrotate.rs line 59), modelled as: split the name on the two literal
dashes, parse three non-empty all-digit fields, and require calendar validity
(month range and day range, with leap years). -/
def parseDate (l : List Char) : Option NDate :=
  match splitDash l with
  | [ys, ms, ds] => parseDate3 ys ms ds
  | _ => none

/-! ## The rotation pass (logrotate.rs) -/

/-- One entry directly under the base directory. `name = none` models an OS
file name that is not valid UTF-8; the two failure flags inject the possible
I/O errors of `entry.metadata()` and of `remove_file`/`remove_dir_all`. -/
structure FsEntry where
  name : Option (List Char)
  isDir : Bool
  metaFails : Bool
  removeFails : Bool
deriving DecidableEq

/-- logrotate.rs lines 44-47: `entry.file_name().into_string()
.unwrap_or_else(|_| "InvalidName".to_string())`. -/
def file_name (e : FsEntry) : List Char := e.name.getD "InvalidName".data

/-- The observable result of `process_entry_async` on one entry: the entry
was kept and Ok was returned, the entry was deleted and Ok was returned, or
an I/O error was returned (and the entry remains on disk). -/
inductive EntryOutcome
  | keptOk
  | deletedOk
  | errKept
deriving DecidableEq

/-- `process_entry_async` (logrotate.rs lines 38-74): files are kept iff
named exactly `heartbeat.log`, `red.log` or `serenity.log`; directories are
kept iff their name parses as a date and
`today.signed_duration_since(dir_date) >= rotation_limit` fails, where the
limit is `ChronoDuration::days(rotation_frequency_days)`. -/
def process_entry_async (lim : Int) (today : NDate) (e : FsEntry) : EntryOutcome :=
  if e.metaFails then .errKept
  else if e.isDir = false then
    if file_name e = "heartbeat.log".data ∨ file_name e = "red.log".data ∨
        file_name e = "serenity.log".data then .keptOk
    else if e.removeFails then .errKept else .deletedOk
  else
    match parseDate (file_name e) with
    | some dd =>
      if daysFromCivil today - daysFromCivil dd ≥ lim then
        if e.removeFails then .errKept else .deletedOk
      else .keptOk
    | none => if e.removeFails then .errKept else .deletedOk

/-- The `while let Some(entry) = read_dir.next_entry().await?` loop of
`rotate_logs_async` (lines 94-96): `process_entry_async(..).await?` propagates
the first entry error, aborting the pass with the remaining entries
unvisited. Returns the surviving entries and whether the pass returned Ok. -/
def rotate_entries (lim : Int) (today : NDate) : List FsEntry → List FsEntry × Bool
  | [] => ([], true)
  | e :: es =>
    match process_entry_async lim today e with
    | .keptOk =>
      let r := rotate_entries lim today es
      (e :: r.1, r.2)
    | .deletedOk => rotate_entries lim today es
    | .errKept => (e :: es, false)

/-- `rotate_logs_async(base_dir, rotation_frequency_days)` (lines 77-98):
`none` models a missing base directory, for which the pass logs and returns
Ok without touching anything. -/
def rotate_logs_async (days : Nat) (today : NDate) (st : Option (List FsEntry)) :
    Option (List FsEntry) × Bool :=
  match st with
  | none => (none, true)
  | some es =>
    let r := rotate_entries ((days : Int)) today es
    (some r.1, r.2)

/-- The sequence of rotation passes performed over time by
`schedule_log_rotation`, each with its own `Local::now().date_naive()`. -/
def rotatePasses (days : Nat) (passes : List NDate) (st : Option (List FsEntry)) :
    Option (List FsEntry) :=
  passes.foldl (fun s p => (rotate_logs_async days p s).1) st

/-- An entry survives a pass, with Ok, iff `process_entry_async` keeps it. -/
def keepsEntry (lim : Int) (today : NDate) (e : FsEntry) : Bool :=
  process_entry_async lim today e == .keptOk

/-! ## The configuration store (src/bot/utils/config.rs) -/

/-- A TOML value, as far as the sanitiser inspects it: strings, integers,
booleans and tables are distinguished; every other value kind (floats,
arrays, datetimes) is `other` — the sanitiser only tests `is_str` /
`is_integer` and moves other values around or replaces them wholesale. -/
inductive Toml
  | str (s : String)
  | int (n : Int)
  | boolean (b : Bool)
  | table (t : List (String × Toml))
  | other

/-- `toml::Value::is_str`. -/
def Toml.isStr : Toml → Bool
  | .str _ => true
  | _ => false

/-- `toml::Value::is_integer`. -/
def Toml.isInt : Toml → Bool
  | .int _ => true
  | _ => false

/-- `Map::get`: the first binding of the key (TOML tables never hold
duplicate keys). -/
def tget (t : List (String × Toml)) (k : String) : Option Toml :=
  match t with
  | [] => none
  | (k2, v) :: rest => if k2 = k then some v else tget rest k

/-- `Map::contains_key`. -/
def containsKey (t : List (String × Toml)) (k : String) : Bool :=
  (tget t k).isSome

/-- `Map::retain(|k, _| known.contains(&&k[..]))`. -/
def tretain (known : List String) (t : List (String × Toml)) :
    List (String × Toml) :=
  t.filter (fun kv => known.contains kv.1)

/-- `entry(k).or_insert_with(default)` for sections, and
`if !t.contains_key(k) { t.insert(k, default) }` for fields. -/
def ensureKey (t : List (String × Toml)) (k : String) (v : Toml) :
    List (String × Toml) :=
  if containsKey t k then t else t ++ [(k, v)]

/-- Assignment through `get_mut(k)`: replace the value of the first binding
of `k`, if any. -/
def updateFirst (t : List (String × Toml)) (k : String) (v : Toml) :
    List (String × Toml) :=
  match t with
  | [] => []
  | (k2, w) :: rest =>
    if k2 = k then (k2, v) :: rest else (k2, w) :: updateFirst rest k v

/-- `if let Some(v) = t.get_mut(k) { if !tyOk(v) { *v = dflt } }`. -/
def coerceField (t : List (String × Toml)) (k : String) (tyOk : Toml → Bool)
    (dflt : Toml) : List (String × Toml) :=
  match tget t k with
  | some v => if tyOk v then t else updateFirst t k dflt
  | none => t

/-- `if let Some(tbl) = section.as_table_mut() { fix(tbl) }`: sanitise a
section's table in place; a section whose value is not a table is left
untouched. -/
def fixSection (t : List (String × Toml)) (k : String)
    (fix : List (String × Toml) → List (String × Toml)) :
    List (String × Toml) :=
  match tget t k with
  | some (.table st) => updateFirst t k (.table (fix st))
  | _ => t

/-- config.rs lines 108-134: retain `token`/`shards`, insert missing fields
with defaults, then reset ill-typed fields to their defaults. -/
def fixRed (t : List (String × Toml)) : List (String × Toml) :=
  coerceField
    (coerceField
      (ensureKey
        (ensureKey (tretain ["token", "shards"] t)
          "token" (.str "placeholder_token"))
        "shards" (.int 1))
      "token" Toml.isStr (.str "placeholder_token"))
    "shards" Toml.isInt (.int 1)

/-- config.rs lines 142-174: the `logging` section. -/
def fixLogging (t : List (String × Toml)) : List (String × Toml) :=
  coerceField
    (coerceField
      (coerceField
        (ensureKey
          (ensureKey
            (ensureKey (tretain ["log-level", "log-filter", "directory"] t)
              "log-level" (.str "info"))
            "log-filter" (.str "Both"))
          "directory" (.str "logs"))
        "log-level" Toml.isStr (.str "info"))
      "log-filter" Toml.isStr (.str "Both"))
    "directory" Toml.isStr (.str "logs")

/-- config.rs lines 182-198: the `logrotate` section. -/
def fixLogrotate (t : List (String × Toml)) : List (String × Toml) :=
  coerceField
    (ensureKey (tretain ["frequency"] t) "frequency" (.str "7d"))
    "frequency" Toml.isStr (.str "7d")

/-- The table-level rewrite of `Config::load_or_create_and_validate`
(config.rs lines 99-198): keep only the known top-level sections, create any
missing section, and sanitise each section's fields, in the source's order. -/
def sanitizedTable (t : List (String × Toml)) : List (String × Toml) :=
  fixSection
    (ensureKey
      (fixSection
        (ensureKey
          (fixSection
            (ensureKey (tretain ["red", "logging", "logrotate"] t)
              "red" (.table []))
            "red" fixRed)
          "logging" (.table []))
        "logging" fixLogging)
      "logrotate" (.table []))
    "logrotate" fixLogrotate

/-- The document rewrite performed by `Config::load_or_create_and_validate`
(config.rs lines 94-201): the sanitised table is the canonical document
written back to disk. A non-table root is an error. -/
def sanitize_document (root : Toml) : Except String Toml :=
  match root with
  | .table t => .ok (.table (sanitizedTable t))
  | _ => .error "Root of config is not a TOML table"

/-- The field-repair rule as the spec states it (for the refinement claims):
a present, well-typed field keeps its value; a missing or ill-typed field
becomes its default. -/
def specFieldValue (o : Option Toml) (ty : Toml → Bool) (d : Toml) : Toml :=
  match o with
  | some v => if ty v then v else d
  | none => d

/-- `toml::Value::is_table` (used only to case-split in proofs). -/
def Toml.isTable : Toml → Bool
  | .table _ => true
  | _ => false

/-- `RedConfig` (config.rs lines 19-25); `shards: u64` is a machine word but
no arithmetic is performed on it here. -/
structure RedConfig where
  token : String
  shards : Nat

/-- `LoggingConfig` (config.rs lines 28-38). -/
structure LoggingConfig where
  log_level : String
  log_filter : String
  directory : String

/-- `LogRotateConfig` (config.rs lines 41-46). -/
structure LogRotateConfig where
  frequency : String

/-- `Config` (config.rs lines 8-16). -/
structure Config where
  red : RedConfig
  logging : LoggingConfig
  logrotate : LogRotateConfig

/-- How a call to `Config::validate` ends: normally, or in `process::exit(1)`
for one of the three fatal checks. -/
inductive ValidateOutcome
  | ok
  | exitPlaceholderToken
  | exitBadLogLevel
  | exitBadLogFilter
deriving DecidableEq

/-- `Config::validate` (config.rs lines 211-246). The log-level match arms
are `"info" | "debug" | "trace"` after `to_lowercase()` — the source does NOT
accept `error` or `warn`; any other value exits. -/
def Config.validate (c : Config) : ValidateOutcome :=
  if c.red.token = "placeholder_token" then .exitPlaceholderToken
  else if rustToLower c.logging.log_level.data = "info".data ∨
      rustToLower c.logging.log_level.data = "debug".data ∨
      rustToLower c.logging.log_level.data = "trace".data then
    if rustToLower c.logging.log_filter.data = "internal".data ∨
        rustToLower c.logging.log_filter.data = "external".data ∨
        rustToLower c.logging.log_filter.data = "both".data then .ok
    else .exitBadLogFilter
  else .exitBadLogLevel

theorem trimIsEmpty_true_iff (l : List Char) :
    trimIsEmpty l = true ↔ ∀ c ∈ l, rustIsWhitespace c = true := by
  unfold trimIsEmpty trimL
  rw [List.isEmpty_iff, List.reverse_eq_nil_iff, List.dropWhile_eq_nil_iff]
  constructor
  · intro h c hc
    have hsplit := List.takeWhile_append_dropWhile (p := rustIsWhitespace) (l := l)
    rw [← hsplit] at hc
    rcases List.mem_append.mp hc with h1 | h2
    · exact List.mem_takeWhile_imp h1
    · exact h (c) (List.mem_reverse.mpr h2)
  · intro h c hc
    exact h c ((List.dropWhile_sublist rustIsWhitespace).subset
      (List.mem_reverse.mp hc))

theorem trimIsEmpty_false_of_mem {l : List Char} {c : Char} (hc : c ∈ l)
    (hw : rustIsWhitespace c = false) : trimIsEmpty l = false := by
  rcases h : trimIsEmpty l with _ | _
  · rfl
  · have := (trimIsEmpty_true_iff l).mp h c hc
    rw [this] at hw
    exact absurd hw (by simp)

theorem splitLines_cons_pos (cs : List Char) :
    splitLines ('\n' :: cs) = ([ '\n' ] :: (splitLines cs).1, (splitLines cs).2) := by
  rw [splitLines]
  simp

theorem splitLines_cons_neg_nil {c : Char} {cs : List Char} (hc : c ≠ '\n')
    (h : (splitLines cs).1 = []) :
    splitLines (c :: cs) = ([], c :: (splitLines cs).2) := by
  rw [splitLines]
  simp only [if_neg hc, h]

theorem splitLines_cons_neg_cons {c : Char} {cs : List Char} {l0 : List Char}
    {ls : List (List Char)} (hc : c ≠ '\n')
    (h : (splitLines cs).1 = l0 :: ls) :
    splitLines (c :: cs) = ((c :: l0) :: ls, (splitLines cs).2) := by
  rw [splitLines]
  simp only [if_neg hc, h]

theorem splitLines_fst_nil {l : List Char} (h : (splitLines l).1 = []) :
    (splitLines l).2 = l := by
  induction l with
  | nil => rfl
  | cons c cs ih =>
    by_cases hc : c = '\n'
    · subst hc
      rw [splitLines_cons_pos] at h
      simp at h
    · rcases hr : (splitLines cs).1 with _ | ⟨l0, ls⟩
      · rw [splitLines_cons_neg_nil hc hr]
        simp [ih hr]
      · rw [splitLines_cons_neg_cons hc hr] at h
        simp at h

theorem splitLines_append (x y : List Char) :
    splitLines (x ++ y) =
      ((splitLines x).1 ++ (splitLines ((splitLines x).2 ++ y)).1,
       (splitLines ((splitLines x).2 ++ y)).2) := by
  induction x with
  | nil => simp [splitLines]
  | cons c cs ih =>
    by_cases hc : c = '\n'
    · subst hc
      have h1 : (splitLines (cs ++ y)).1 =
          (splitLines cs).1 ++ (splitLines ((splitLines cs).2 ++ y)).1 := by
        rw [ih]
      have h2 : (splitLines (cs ++ y)).2 =
          (splitLines ((splitLines cs).2 ++ y)).2 := by
        rw [ih]
      rw [List.cons_append, splitLines_cons_pos, splitLines_cons_pos, h1, h2]
      simp
    · rcases hr : (splitLines cs).1 with _ | ⟨l0, ls⟩
      · have htail : (splitLines cs).2 = cs := splitLines_fst_nil hr
        rw [List.cons_append, splitLines_cons_neg_nil hc hr, htail]
        simp
      · have hcy1 : (splitLines (cs ++ y)).1 =
            l0 :: (ls ++ (splitLines ((splitLines cs).2 ++ y)).1) := by
          rw [ih, hr]
          rfl
        have hcy2 : (splitLines (cs ++ y)).2 =
            (splitLines ((splitLines cs).2 ++ y)).2 := by
          rw [ih]
        rw [List.cons_append, splitLines_cons_neg_cons hc hcy1,
          splitLines_cons_neg_cons hc hr, hcy2]
        simp

theorem splitLines_flatten (l : List Char) :
    (splitLines l).1.flatten ++ (splitLines l).2 = l := by
  induction l with
  | nil => rfl
  | cons c cs ih =>
    by_cases hc : c = '\n'
    · subst hc
      rw [splitLines_cons_pos]
      simpa using ih
    · rcases hr : (splitLines cs).1 with _ | ⟨l0, ls⟩
      · rw [splitLines_cons_neg_nil hc hr]
        simp [splitLines_fst_nil hr]
      · rw [splitLines_cons_neg_cons hc hr]
        have ihx : (l0 ++ ls.flatten) ++ (splitLines cs).2 = cs := by
          simpa [hr] using ih
        simp only [List.flatten_cons, List.cons_append, List.append_assoc] at ihx ⊢
        rw [ihx]

theorem splitLines_newline_end (x : List Char) :
    (splitLines (x ++ [ '\n' ])).2 = [] ∧ (splitLines (x ++ [ '\n' ])).1 ≠ [] := by
  induction x with
  | nil =>
    rw [List.nil_append, splitLines_cons_pos]
    simp [splitLines]
  | cons c cs ih =>
    obtain ⟨h2, h1⟩ := ih
    by_cases hc : c = '\n'
    · subst hc
      rw [List.cons_append, splitLines_cons_pos]
      simp [h2]
    · rcases hr : (splitLines (cs ++ [ '\n' ])).1 with _ | ⟨l0, ls⟩
      · exact absurd hr h1
      · rw [List.cons_append, splitLines_cons_neg_cons hc hr]
        simp [h2]

theorem writeChunk_writeChunk (w : NoEmptyLineWriter) (a b : List Char) :
    writeChunk (writeChunk w a) b = writeChunk w (a ++ b) := by
  unfold writeChunk
  simp only
  rw [← List.append_assoc, splitLines_append (w.buffer ++ a) b]
  simp [List.filter_append, List.append_assoc]

theorem foldl_writeChunk (ws : List (List Char)) (w : NoEmptyLineWriter)
    (a : List Char) :
    ws.foldl writeChunk (writeChunk w a) = writeChunk w (a ++ ws.flatten) := by
  induction ws generalizing a with
  | nil => simp
  | cons b ws ih =>
    simp only [List.foldl_cons, List.flatten_cons]
    rw [writeChunk_writeChunk, ih, List.append_assoc]

theorem runWrites_eq (ws : List (List Char)) :
    runWrites ws = writeChunk emptyW ws.flatten := by
  rcases ws with _ | ⟨a, ws⟩
  · rfl
  · simpa [runWrites] using foldl_writeChunk ws emptyW a

/-- Claim C8: for every sink, the empty-line-elision wrapper never hands the
underlying writer a line that is empty after trimming: over any sequence of
byte chunks written through the wrapper and then flushed, the forwarded output
is exactly the completed lines of the concatenated input whose trimmed form is
non-empty, followed by the residual tail (the part after the last newline) iff
its trimmed form is non-empty; in particular every forwarded chunk is
non-empty after trimming. -/
theorem c8_no_empty_line_forwarded (ws : List (List Char)) :
    (∀ l ∈ (flushW (runWrites ws)).emitted, trimIsEmpty l = false) ∧
    (flushW (runWrites ws)).emitted =
      (splitLines ws.flatten).1.filter (fun l => !trimIsEmpty l) ++
        (if trimIsEmpty (splitLines ws.flatten).2 then []
         else [(splitLines ws.flatten).2]) := by
  have hrun : runWrites ws = writeChunk emptyW ws.flatten := runWrites_eq ws
  have hemit : (flushW (runWrites ws)).emitted =
      (splitLines ws.flatten).1.filter (fun l => !trimIsEmpty l) ++
        (if trimIsEmpty (splitLines ws.flatten).2 then []
         else [(splitLines ws.flatten).2]) := by
    rw [hrun]
    unfold flushW writeChunk emptyW
    simp
  refine ⟨?_, hemit⟩
  intro l hl
  rw [hemit] at hl
  rcases List.mem_append.mp hl with h1 | h2
  · have := (List.mem_filter.mp h1).2
    simpa using this
  · rcases htail : trimIsEmpty (splitLines ws.flatten).2 with _ | _
    · rw [htail] at h2
      have : l = (splitLines ws.flatten).2 := by simpa using h2
      rw [this, htail]
    · rw [htail] at h2
      simp at h2

theorem sinkForwards_of_mem {line : List Char} {c : Char} (hc : c ∈ line)
    (hw : rustIsWhitespace c = false) : sinkForwards line = true := by
  unfold sinkForwards
  suffices h : (writeChunk emptyW (line ++ [ '\n' ])).emitted ≠ [] by
    rcases he : (writeChunk emptyW (line ++ [ '\n' ])).emitted with _ | _
    · exact absurd he h
    · rfl
  unfold writeChunk emptyW
  simp only [List.nil_append]
  intro hnil
  have hfilter : ∀ l ∈ (splitLines (line ++ [ '\n' ])).1, trimIsEmpty l = true := by
    simpa using hnil
  have hflat : (splitLines (line ++ [ '\n' ])).1.flatten = line ++ [ '\n' ] := by
    have h := splitLines_flatten (line ++ [ '\n' ])
    rw [(splitLines_newline_end line).1, List.append_nil] at h
    exact h
  have hcmem : c ∈ (splitLines (line ++ [ '\n' ])).1.flatten := by
    rw [hflat]
    exact List.mem_append.mpr (Or.inl hc)
  obtain ⟨piece, hp, hcp⟩ := List.mem_flatten.mp hcmem
  have := (trimIsEmpty_true_iff piece).mp (hfilter piece hp) c hcp
  rw [this] at hw
  exact absurd hw (by simp)

theorem sinkForwards_fmtLine (ts lvl msg : List Char) :
    sinkForwards (fmtLine ts lvl msg) = true := by
  apply sinkForwards_of_mem (c := '[')
  · unfold fmtLine
    refine List.mem_append.mpr (Or.inl (List.mem_append.mpr (Or.inr ?_)))
    simp
  · decide

/-- Claim C1: the code's behaviour at the failing inputs. With threshold
`info` and `extra_logs` on, a `serenity`-targeted record of severity `info`
IS delivered to `serenity.log`, while a `serenity`-targeted record of
severity `error` is delivered to no sink at all: `serenity_filter` compares
`metadata.level() >= Level::Warn` under the log crate's ordering, in which
`Error < Warn < Info`, so the filter admits warn-and-more-verbose records and
rejects errors — the opposite of the specified "warn or higher" floor. -/
theorem c1_serenity_filter_inverted :
    serenityLogReceives ⟨"info".data, true⟩ "2024-01-08 12:00:00".data
      ⟨.info, "serenity.gateway".data, "hello".data⟩ = true ∧
    consoleReceives ⟨"info".data, true⟩ "2024-01-08 12:00:00".data
      ⟨.info, "serenity.gateway".data, "hello".data⟩ = false ∧
    redLogReceives ⟨"info".data, true⟩ "2024-01-08 12:00:00".data
      ⟨.info, "serenity.gateway".data, "hello".data⟩ = false ∧
    serenityLogReceives ⟨"info".data, true⟩ "2024-01-08 12:00:00".data
      ⟨.error, "serenity.gateway".data, "boom".data⟩ = false ∧
    consoleReceives ⟨"info".data, true⟩ "2024-01-08 12:00:00".data
      ⟨.error, "serenity.gateway".data, "boom".data⟩ = false ∧
    redLogReceives ⟨"info".data, true⟩ "2024-01-08 12:00:00".data
      ⟨.error, "serenity.gateway".data, "boom".data⟩ = false ∧
    heartbeatLogReceives ⟨"info".data, true⟩ "2024-01-08 12:00:00".data
      ⟨.error, "serenity.gateway".data, "boom".data⟩ = false := by
  decide

/-- Claim C2 counterexample: the record whose message is `" heartbeat;"` (one
leading space) trims to the heartbeat token `"heartbeat;"`, yet
`is_heartbeat` compares the message WITHOUT trimming, so `red.log` receives
the record and `heartbeat.log` does not — contradicting the claim for
messages that only equal a token after trimming. -/
theorem c2_trimmed_message_counterexample :
    trimL " heartbeat;".data = "heartbeat;".data ∧
    HEARTBEAT_WORDS.contains (trimL " heartbeat;".data) = true ∧
    redLogReceives ⟨"info".data, true⟩ "2024-01-08 12:00:00".data
      ⟨.info, "app".data, " heartbeat;".data⟩ = true ∧
    heartbeatLogReceives ⟨"info".data, true⟩ "2024-01-08 12:00:00".data
      ⟨.info, "app".data, " heartbeat;".data⟩ = false := by
  decide

/-- Claim C2 (amended): for every record whose message EXACTLY equals one of
the fifteen heartbeat tokens (trailing semicolon included, no trimming;
substring matches do not count), the console and `red.log` never receive it,
and when `extra_logs` is on and the record passes the global severity
threshold, `heartbeat.log` receives it; `heartbeat.log` likewise receives
every threshold-passing record whose target equals `heartbeat` when
`extra_logs` is on. -/
theorem c2_heartbeat_routing (cfg : LoggerConfig) (ts : List Char)
    (r : LogRecord) :
    (HEARTBEAT_WORDS.contains r.message = true →
      consoleReceives cfg ts r = false ∧ redLogReceives cfg ts r = false ∧
      (cfg.extra_logs = true →
        levelPasses r.level (log_level_from_config cfg.log_level) = true →
        heartbeatLogReceives cfg ts r = true)) ∧
    (r.target = "heartbeat".data → cfg.extra_logs = true →
      levelPasses r.level (log_level_from_config cfg.log_level) = true →
      heartbeatLogReceives cfg ts r = true) := by
  constructor
  · intro hmsg
    have hhb : is_heartbeat r = true := hmsg
    refine ⟨?_, ?_, ?_⟩
    · unfold consoleReceives non_serenity_console_format
      rw [if_pos hhb]
      have : sinkForwards [] = false := by decide
      rw [this]
      simp
    · unfold redLogReceives non_serenity_file_format
      rw [if_pos hhb]
      have : sinkForwards [] = false := by decide
      rw [this]
      simp
    · intro hextra hlev
      unfold heartbeatLogReceives heartbeat_file_format
      rw [hextra, hlev, hhb]
      simp [sinkForwards_fmtLine]
  · intro htgt hextra hlev
    unfold heartbeatLogReceives heartbeat_file_format
    rw [hextra, hlev, htgt]
    simp [sinkForwards_fmtLine]

/-- Witness for C2: concrete instances discharging each hypothesis — an exact
`"heartbeat;"` message is suppressed on `red.log` and delivered to
`heartbeat.log`, and a `heartbeat`-targeted record is delivered to
`heartbeat.log`. -/
theorem c2_heartbeat_routing_witness :
    redLogReceives ⟨"info".data, true⟩ "2024-01-08 12:00:00".data
      ⟨.info, "app".data, "heartbeat;".data⟩ = false ∧
    heartbeatLogReceives ⟨"info".data, true⟩ "2024-01-08 12:00:00".data
      ⟨.info, "app".data, "heartbeat;".data⟩ = true ∧
    heartbeatLogReceives ⟨"info".data, true⟩ "2024-01-08 12:00:00".data
      ⟨.warn, "heartbeat".data, "Logging initialized.".data⟩ = true := by
  have h1 := c2_heartbeat_routing ⟨"info".data, true⟩ "2024-01-08 12:00:00".data
    ⟨.info, "app".data, "heartbeat;".data⟩
  have h2 := c2_heartbeat_routing ⟨"info".data, true⟩ "2024-01-08 12:00:00".data
    ⟨.warn, "heartbeat".data, "Logging initialized.".data⟩
  obtain ⟨hm, -⟩ := h1
  obtain ⟨-, ht⟩ := h2
  have hm' := hm (by decide)
  exact ⟨hm'.2.1, hm'.2.2 rfl (by decide), ht (by decide) rfl (by decide)⟩

theorem digitVal_digitChar (n : Nat) : digitVal (digitChar n) = some (n % 10) := by
  have h : n % 10 < 10 := Nat.mod_lt _ (by omega)
  unfold digitChar
  set k := n % 10 with hk
  interval_cases k <;> decide

theorem digitChar_ne_dash (n : Nat) : digitChar n ≠ '-' := by
  have h : n % 10 < 10 := Nat.mod_lt _ (by omega)
  unfold digitChar
  set k := n % 10 with hk
  interval_cases k <;> decide

theorem parseNat_twoDigits {n : Nat} (h : n < 100) :
    parseNatL (twoDigits n) = some n := by
  unfold twoDigits parseNatL parseNatAux
  simp only [digitVal_digitChar, parseNatAux]
  congr 1
  omega

theorem parseNat_fourDigits {n : Nat} (h : n < 10000) :
    parseNatL (fourDigits n) = some n := by
  unfold fourDigits parseNatL parseNatAux
  simp only [digitVal_digitChar, parseNatAux]
  congr 1
  omega

theorem splitDash_cons (c : Char) (cs : List Char) :
    splitDash (c :: cs) =
      match splitDash cs with
      | [] => [[]]
      | g :: gs => if c = '-' then [] :: g :: gs else (c :: g) :: gs := by
  rw [splitDash]

theorem splitDash_no_dash {l : List Char} (rest : List Char) {g : List Char}
    {gs : List (List Char)} (hl : ∀ c ∈ l, c ≠ '-')
    (hrest : splitDash rest = g :: gs) :
    splitDash (l ++ rest) = (l ++ g) :: gs := by
  induction l with
  | nil => simpa using hrest
  | cons c cs ih =>
    have hcs : ∀ x ∈ cs, x ≠ '-' := fun x hx => hl x (List.mem_cons_of_mem c hx)
    have hc : c ≠ '-' := hl c (List.mem_cons_self c cs)
    rw [List.cons_append, splitDash_cons, ih hcs]
    simp [hc]

theorem splitDash_formatDate (dt : NDate) :
    splitDash (formatDate dt) = [fourDigits dt.y, twoDigits dt.m, twoDigits dt.d] := by
  have hno4 : ∀ c ∈ fourDigits dt.y, c ≠ '-' := by
    intro c hc
    simp only [fourDigits, List.mem_cons, List.not_mem_nil, or_false] at hc
    rcases hc with h | h | h | h <;> exact h ▸ digitChar_ne_dash _
  have hno2m : ∀ c ∈ twoDigits dt.m, c ≠ '-' := by
    intro c hc
    simp only [twoDigits, List.mem_cons, List.not_mem_nil, or_false] at hc
    rcases hc with h | h <;> exact h ▸ digitChar_ne_dash _
  have h0 : splitDash (twoDigits dt.d) = [twoDigits dt.d] := by
    have := splitDash_no_dash (l := twoDigits dt.d) []
      (by
        intro c hc
        simp only [twoDigits, List.mem_cons, List.not_mem_nil, or_false] at hc
        rcases hc with h | h <;> exact h ▸ digitChar_ne_dash _)
      (show splitDash [] = [] :: [] from rfl)
    simpa using this
  have h1 : splitDash ('-' :: twoDigits dt.d) = [[], twoDigits dt.d] := by
    rw [splitDash_cons, h0]
    simp
  have h2 : splitDash (twoDigits dt.m ++ ('-' :: twoDigits dt.d)) =
      [twoDigits dt.m, twoDigits dt.d] := by
    have := splitDash_no_dash ('-' :: twoDigits dt.d) hno2m h1
    simpa using this
  have h3 : splitDash ('-' :: (twoDigits dt.m ++ ('-' :: twoDigits dt.d))) =
      [[], twoDigits dt.m, twoDigits dt.d] := by
    rw [splitDash_cons, h2]
    simp
  have h4 := splitDash_no_dash ('-' :: (twoDigits dt.m ++ ('-' :: twoDigits dt.d)))
    hno4 h3
  unfold formatDate
  rw [List.append_assoc]
  simpa using h4

theorem daysInMonth_le_31 (y m : Nat) : daysInMonth y m ≤ 31 := by
  unfold daysInMonth
  split
  · split <;> omega
  · split <;> omega

theorem parseDate_formatDate (dt : NDate)
    (hval : isValidYmd dt.y dt.m dt.d = true) (hy : dt.y ≤ 9999) :
    parseDate (formatDate dt) = some dt := by
  have hdm := daysInMonth_le_31 dt.y dt.m
  have hv := hval
  unfold isValidYmd at hv
  simp only [Bool.and_eq_true, decide_eq_true_eq] at hv
  unfold parseDate
  rw [splitDash_formatDate]
  show parseDate3 (fourDigits dt.y) (twoDigits dt.m) (twoDigits dt.d) = some dt
  unfold parseDate3
  rw [parseNat_fourDigits (by omega), parseNat_twoDigits (by omega),
    parseNat_twoDigits (by omega)]
  simp [hval]

theorem rotate_entries_cons (lim : Int) (today : NDate) (e : FsEntry)
    (es : List FsEntry) :
    rotate_entries lim today (e :: es) =
      match process_entry_async lim today e with
      | .keptOk =>
        ((e :: (rotate_entries lim today es).1), (rotate_entries lim today es).2)
      | .deletedOk => rotate_entries lim today es
      | .errKept => (e :: es, false) := by
  rw [rotate_entries]

theorem process_entry_async_ne_err {lim : Int} {today : NDate} {e : FsEntry}
    (h1 : e.metaFails = false) (h2 : e.removeFails = false) :
    process_entry_async lim today e ≠ .errKept := by
  unfold process_entry_async
  rw [h1, h2]
  simp only [Bool.false_eq_true, if_false]
  split
  · split
    · simp
    · simp
  · split
    · split
      · simp
      · simp
    · simp

theorem rotate_entries_clean (lim : Int) (today : NDate) (es : List FsEntry)
    (h : ∀ e ∈ es, e.metaFails = false ∧ e.removeFails = false) :
    rotate_entries lim today es = (es.filter (keepsEntry lim today), true) := by
  induction es with
  | nil => rfl
  | cons e es ih =>
    have he := h e (List.mem_cons_self e es)
    have hes := fun x hx => h x (List.mem_cons_of_mem e hx)
    rw [rotate_entries_cons]
    rcases hp : process_entry_async lim today e with _ | _ | _
    · have hk : keepsEntry lim today e = true := by
        unfold keepsEntry
        rw [hp]
        rfl
      rw [ih hes]
      simp [List.filter_cons, hk]
    · have hk : keepsEntry lim today e = false := by
        unfold keepsEntry
        rw [hp]
        rfl
      rw [ih hes]
      simp [List.filter_cons, hk]
    · exact absurd hp (process_entry_async_ne_err he.1 he.2)

theorem mem_rotate_entries {lim : Int} {today : NDate} {es : List FsEntry}
    {e : FsEntry} (he : e ∈ es)
    (hnd : process_entry_async lim today e ≠ .deletedOk) :
    e ∈ (rotate_entries lim today es).1 := by
  induction es with
  | nil => exact absurd he (List.not_mem_nil e)
  | cons x xs ih =>
    rw [rotate_entries_cons]
    rcases hp : process_entry_async lim today x with _ | _ | _
    · rcases List.mem_cons.mp he with hex | hmem
      · subst hex
        exact List.mem_cons_self _ _
      · exact List.mem_cons_of_mem _ (ih hmem)
    · rcases List.mem_cons.mp he with hex | hmem
      · subst hex
        exact absurd hp hnd
      · exact ih hmem
    · exact he

/-- Claim C3: after one failure-free rotation pass, a directory entry whose
name parses as YYYY-MM-DD still exists iff its age in whole days against
today's local date is strictly below `retention_days`; a directory whose name
does not parse as a date is deleted; and a file is retained iff its name is
exactly one of heartbeat.log, red.log, serenity.log. -/
theorem c3_rotation_policy (days : Nat) (today : NDate) (es : List FsEntry)
    (e : FsEntry)
    (hclean : ∀ x ∈ es, x.metaFails = false ∧ x.removeFails = false)
    (he : e ∈ es) :
    (rotate_logs_async days today (some es)).2 = true ∧
    ∃ es', (rotate_logs_async days today (some es)).1 = some es' ∧
      (e.isDir = true →
        (∀ dd, parseDate (file_name e) = some dd →
          (e ∈ es' ↔ daysFromCivil today - daysFromCivil dd < (days : Int))) ∧
        (parseDate (file_name e) = none → e ∉ es')) ∧
      (e.isDir = false →
        (e ∈ es' ↔ (file_name e = "heartbeat.log".data ∨
          file_name e = "red.log".data ∨ file_name e = "serenity.log".data))) := by
  have hcl := hclean e he
  have hre := rotate_entries_clean ((days : Int)) today es hclean
  have hsnd : (rotate_logs_async days today (some es)).2 =
      (rotate_entries ((days : Int)) today es).2 := rfl
  have hfst : (rotate_logs_async days today (some es)).1 =
      some (rotate_entries ((days : Int)) today es).1 := rfl
  have hmem : e ∈ (rotate_entries ((days : Int)) today es).1 ↔
      keepsEntry ((days : Int)) today e = true := by
    rw [hre]
    simp [List.mem_filter, he]
  refine ⟨by rw [hsnd, hre], (rotate_entries ((days : Int)) today es).1, hfst,
    ?_, ?_⟩
  · intro hdir
    constructor
    · intro dd hdd
      rw [hmem]
      unfold keepsEntry process_entry_async
      rw [hcl.1, hcl.2, hdir, hdd]
      by_cases hge : daysFromCivil today - daysFromCivil dd ≥ (days : Int)
      · simp only [if_pos hge]
        simp
        omega
      · simp only [if_neg hge]
        simp
        omega
    · intro hdd
      rw [hmem]
      unfold keepsEntry process_entry_async
      rw [hcl.1, hcl.2, hdir, hdd]
      simp
  · intro hdir
    rw [hmem]
    unfold keepsEntry process_entry_async
    rw [hcl.1, hcl.2, hdir]
    by_cases hn : (file_name e = "heartbeat.log".data ∨
        file_name e = "red.log".data ∨ file_name e = "serenity.log".data)
    · simp [hn]
    · simp [hn]

/-- Witness for C3: the spec's pruning scenario — retention 7, today
2024-01-08, partitions 2024-01-01 (age 7, pruned), 2024-01-07 and 2024-01-08
(kept), and a stray file notes.txt (pruned). -/
theorem c3_rotation_policy_witness :
    ∃ es', (rotate_logs_async 7 ⟨2024, 1, 8⟩
        (some [⟨some "2024-01-01".data, true, false, false⟩,
               ⟨some "2024-01-07".data, true, false, false⟩,
               ⟨some "2024-01-08".data, true, false, false⟩,
               ⟨some "notes.txt".data, false, false, false⟩])).1 = some es' ∧
      (⟨some "2024-01-01".data, true, false, false⟩ : FsEntry) ∉ es' ∧
      (⟨some "2024-01-07".data, true, false, false⟩ : FsEntry) ∈ es' ∧
      (⟨some "2024-01-08".data, true, false, false⟩ : FsEntry) ∈ es' ∧
      (⟨some "notes.txt".data, false, false, false⟩ : FsEntry) ∉ es' := by
  obtain ⟨-, es', heq, hdir1, -⟩ := c3_rotation_policy 7 ⟨2024, 1, 8⟩
    [⟨some "2024-01-01".data, true, false, false⟩,
     ⟨some "2024-01-07".data, true, false, false⟩,
     ⟨some "2024-01-08".data, true, false, false⟩,
     ⟨some "notes.txt".data, false, false, false⟩]
    ⟨some "2024-01-01".data, true, false, false⟩ (by decide) (by decide)
  obtain ⟨-, es2, heq2, hdir2, -⟩ := c3_rotation_policy 7 ⟨2024, 1, 8⟩
    [⟨some "2024-01-01".data, true, false, false⟩,
     ⟨some "2024-01-07".data, true, false, false⟩,
     ⟨some "2024-01-08".data, true, false, false⟩,
     ⟨some "notes.txt".data, false, false, false⟩]
    ⟨some "2024-01-07".data, true, false, false⟩ (by decide) (by decide)
  obtain ⟨-, es3, heq3, hdir3, -⟩ := c3_rotation_policy 7 ⟨2024, 1, 8⟩
    [⟨some "2024-01-01".data, true, false, false⟩,
     ⟨some "2024-01-07".data, true, false, false⟩,
     ⟨some "2024-01-08".data, true, false, false⟩,
     ⟨some "notes.txt".data, false, false, false⟩]
    ⟨some "2024-01-08".data, true, false, false⟩ (by decide) (by decide)
  obtain ⟨-, es4, heq4, -, hfile4⟩ := c3_rotation_policy 7 ⟨2024, 1, 8⟩
    [⟨some "2024-01-01".data, true, false, false⟩,
     ⟨some "2024-01-07".data, true, false, false⟩,
     ⟨some "2024-01-08".data, true, false, false⟩,
     ⟨some "notes.txt".data, false, false, false⟩]
    ⟨some "notes.txt".data, false, false, false⟩ (by decide) (by decide)
  rw [heq] at heq2 heq3 heq4
  have he2 : es2 = es' := (Option.some.inj heq2).symm
  have he3 : es3 = es' := (Option.some.inj heq3).symm
  have he4 : es4 = es' := (Option.some.inj heq4).symm
  rw [he2] at hdir2
  rw [he3] at hdir3
  rw [he4] at hfile4
  refine ⟨es', heq, ?_, ?_, ?_, ?_⟩
  · intro hmem
    have h := ((hdir1 rfl).1 ⟨2024, 1, 1⟩ (by decide)).mp hmem
    revert h
    decide
  · exact ((hdir2 rfl).1 ⟨2024, 1, 7⟩ (by decide)).mpr (by decide)
  · exact ((hdir3 rfl).1 ⟨2024, 1, 8⟩ (by decide)).mpr (by decide)
  · intro hmem
    have h := (hfile4 rfl).mp hmem
    revert h
    decide

/-- Claim C4 counterexample: a base directory whose first entry fails to
stat and whose second entry is a deletable stray file — the pass returns an
error even though the directory read succeeded, and the second entry is left
unprocessed (a clean pass would have deleted it). -/
theorem c4_counterexample :
    (rotate_logs_async 7 ⟨2024, 1, 8⟩
      (some [⟨some "stale.tmp".data, false, true, false⟩,
             ⟨some "junk.txt".data, false, false, false⟩])).2 = false ∧
    (⟨some "junk.txt".data, false, false, false⟩ : FsEntry) ∈
      ((rotate_logs_async 7 ⟨2024, 1, 8⟩
        (some [⟨some "stale.tmp".data, false, true, false⟩,
               ⟨some "junk.txt".data, false, false, false⟩])).1.getD []) ∧
    (rotate_logs_async 7 ⟨2024, 1, 8⟩
      (some [⟨some "junk.txt".data, false, false, false⟩])).1 = some [] := by
  decide

/-- Claim C4 (amended): an I/O failure on a single entry aborts the pass —
`process_entry_async(..).await?` propagates the error, so the entries before
the failing one are processed normally, the failing entry and every later
entry are left untouched, and `rotate_logs_async` returns the error rather
than success (the scheduling loop then logs it and waits for the next pass). -/
theorem c4_entry_error_aborts (days : Nat) (today : NDate)
    (es1 es2 : List FsEntry) (e : FsEntry)
    (h1 : ∀ x ∈ es1, x.metaFails = false ∧ x.removeFails = false)
    (he : process_entry_async ((days : Int)) today e = .errKept) :
    rotate_logs_async days today (some (es1 ++ e :: es2)) =
      (some (es1.filter (keepsEntry ((days : Int)) today) ++ e :: es2),
        false) := by
  have key : ∀ l1 : List FsEntry,
      (∀ x ∈ l1, x.metaFails = false ∧ x.removeFails = false) →
      rotate_entries ((days : Int)) today (l1 ++ e :: es2) =
        (l1.filter (keepsEntry ((days : Int)) today) ++ e :: es2, false) := by
    intro l1
    induction l1 with
    | nil =>
      intro _
      rw [List.nil_append, rotate_entries_cons, he]
      simp
    | cons x xs ih =>
      intro hcl
      have hx := hcl x (List.mem_cons_self x xs)
      have hxs := fun z hz => hcl z (List.mem_cons_of_mem x hz)
      rw [List.cons_append, rotate_entries_cons]
      rcases hp : process_entry_async ((days : Int)) today x with _ | _ | _
      · have hk : keepsEntry ((days : Int)) today x = true := by
          unfold keepsEntry
          rw [hp]
          rfl
        rw [ih hxs]
        simp [List.filter_cons, hk]
      · have hk : keepsEntry ((days : Int)) today x = false := by
          unfold keepsEntry
          rw [hp]
          rfl
        rw [ih hxs]
        simp [List.filter_cons, hk]
      · exact absurd hp (process_entry_async_ne_err hx.1 hx.2)
  have hk := key es1 h1
  show (some (rotate_entries ((days : Int)) today (es1 ++ e :: es2)).1,
    (rotate_entries ((days : Int)) today (es1 ++ e :: es2)).2) = _
  rw [hk]

/-- Witness for C4 (amended): a clean `red.log` entry before a failing stat,
followed by a stray file — the kept prefix is filtered, the failing entry and
its successor survive, and the pass reports failure. -/
theorem c4_entry_error_aborts_witness :
    rotate_logs_async 7 ⟨2024, 1, 8⟩
      (some ([⟨some "red.log".data, false, false, false⟩] ++
        (⟨some "stale.tmp".data, false, true, false⟩ : FsEntry) ::
          [⟨some "junk.txt".data, false, false, false⟩])) =
      (some ([⟨some "red.log".data, false, false, false⟩].filter
          (keepsEntry (((7 : Nat) : Int)) ⟨2024, 1, 8⟩) ++
        (⟨some "stale.tmp".data, false, true, false⟩ : FsEntry) ::
          [⟨some "junk.txt".data, false, false, false⟩]), false) :=
  c4_entry_error_aborts 7 ⟨2024, 1, 8⟩ _ _ _ (by decide) (by decide)

/-- Claim C5: with retention at least one day, no sequence of rotation
passes, each run on a date no later than day `t`, ever deletes the
day-partition directory named with date `t`: if it is present before the
passes it is present after all of them. -/
theorem c5_todays_partition_survives (days : Nat) (t : NDate)
    (passes : List NDate) (es : List FsEntry) (e : FsEntry)
    (hret : 1 ≤ days)
    (hval : isValidYmd t.y t.m t.d = true) (hy : t.y ≤ 9999)
    (hdir : e.isDir = true) (hname : e.name = some (formatDate t))
    (hp : ∀ p ∈ passes, daysFromCivil p ≤ daysFromCivil t)
    (he : e ∈ es) :
    ∃ es', rotatePasses days passes (some es) = some es' ∧ e ∈ es' := by
  revert hp he
  induction passes generalizing es with
  | nil =>
    intro hp he
    exact ⟨es, rfl, he⟩
  | cons p ps ih =>
    intro hp he
    have hp0 := hp p (List.mem_cons_self p ps)
    have hps := fun q hq => hp q (List.mem_cons_of_mem p hq)
    have hfn : file_name e = formatDate t := by
      rw [file_name, hname]
      rfl
    have hnd : process_entry_async ((days : Int)) p e ≠ .deletedOk := by
      unfold process_entry_async
      rcases hmf : e.metaFails with _ | _
      · rw [hdir, hfn, parseDate_formatDate t hval hy]
        have hlt : ¬ (daysFromCivil p - daysFromCivil t ≥ (days : Int)) := by
          omega
        simp [hlt]
      · simp
    have hmem := mem_rotate_entries he hnd
    have hstep : rotatePasses days (p :: ps) (some es) =
        rotatePasses days ps (some (rotate_entries ((days : Int)) p es).1) :=
      rfl
    rw [hstep]
    exact ih _ hps hmem

/-- Witness for C5: the 2024-01-08 partition survives passes run on
2024-01-07 and 2024-01-08 with retention 7, while a stray file is pruned. -/
theorem c5_todays_partition_survives_witness :
    ∃ es', rotatePasses 7 [⟨2024, 1, 7⟩, ⟨2024, 1, 8⟩]
        (some [⟨some "2024-01-08".data, true, false, false⟩,
               ⟨some "junk.txt".data, false, false, false⟩]) = some es' ∧
      (⟨some "2024-01-08".data, true, false, false⟩ : FsEntry) ∈ es' :=
  c5_todays_partition_survives 7 ⟨2024, 1, 8⟩ [⟨2024, 1, 7⟩, ⟨2024, 1, 8⟩]
    [⟨some "2024-01-08".data, true, false, false⟩,
     ⟨some "junk.txt".data, false, false, false⟩]
    ⟨some "2024-01-08".data, true, false, false⟩
    (by decide) (by decide) (by decide) rfl (by decide) (by decide) (by decide)

/-- Claim C10: an entry whose OS name is not valid UTF-8 is processed under
the substitute name `InvalidName`; whether it is a file (name not in the
allowed set) or a directory (name not a date), a failure-free pass deletes
it — it is never retained. -/
theorem c10_invalid_name_deleted (days : Nat) (today : NDate)
    (es : List FsEntry) (e : FsEntry)
    (hclean : ∀ x ∈ es, x.metaFails = false ∧ x.removeFails = false)
    (he : e ∈ es) (hname : e.name = none) :
    file_name e = "InvalidName".data ∧
    (rotate_logs_async days today (some es)).2 = true ∧
    ∃ es', (rotate_logs_async days today (some es)).1 = some es' ∧ e ∉ es' := by
  have hcl := hclean e he
  have hfn : file_name e = "InvalidName".data := by
    rw [file_name, hname]
    rfl
  have hre := rotate_entries_clean ((days : Int)) today es hclean
  have hkeep : keepsEntry ((days : Int)) today e = false := by
    unfold keepsEntry process_entry_async
    rw [hcl.1, hcl.2, hfn]
    rcases hd : e.isDir with _ | _
    · have hn : ¬("InvalidName".data = "heartbeat.log".data ∨
          "InvalidName".data = "red.log".data ∨
          "InvalidName".data = "serenity.log".data) := by decide
      simp [hn]
    · have hpd : parseDate "InvalidName".data = none := by decide
      rw [hpd]
      simp
  refine ⟨hfn,
    by
      rw [show (rotate_logs_async days today (some es)).2 =
        (rotate_entries ((days : Int)) today es).2 from rfl, hre],
    (rotate_entries ((days : Int)) today es).1, rfl, ?_⟩
  rw [hre]
  simp [List.mem_filter, hkeep]

/-- Witness for C10: one invalid-named directory and one invalid-named file,
both removed by a clean pass. -/
theorem c10_invalid_name_deleted_witness :
    file_name ⟨none, true, false, false⟩ = "InvalidName".data ∧
    ∃ es', (rotate_logs_async 7 ⟨2024, 1, 8⟩
        (some [⟨none, true, false, false⟩,
               ⟨none, false, false, false⟩])).1 = some es' ∧
      (⟨none, true, false, false⟩ : FsEntry) ∉ es' ∧
      (⟨none, false, false, false⟩ : FsEntry) ∉ es' := by
  obtain ⟨hfn1, -, es', heq, hnot1⟩ := c10_invalid_name_deleted 7 ⟨2024, 1, 8⟩
    [⟨none, true, false, false⟩, ⟨none, false, false, false⟩]
    ⟨none, true, false, false⟩ (by decide) (by decide) rfl
  obtain ⟨-, -, es2, heq2, hnot2⟩ := c10_invalid_name_deleted 7 ⟨2024, 1, 8⟩
    [⟨none, true, false, false⟩, ⟨none, false, false, false⟩]
    ⟨none, false, false, false⟩ (by decide) (by decide) rfl
  rw [heq] at heq2
  have he2 : es2 = es' := (Option.some.inj heq2).symm
  rw [he2] at hnot2
  exact ⟨hfn1, es', heq, hnot1, hnot2⟩

theorem tget_cons (k2 : String) (v : Toml) (rest : List (String × Toml))
    (k : String) :
    tget ((k2, v) :: rest) k = if k2 = k then some v else tget rest k := by
  rw [tget]

theorem updateFirst_cons (k2 : String) (w : Toml) (rest : List (String × Toml))
    (k : String) (v : Toml) :
    updateFirst ((k2, w) :: rest) k v =
      if k2 = k then (k2, v) :: rest else (k2, w) :: updateFirst rest k v := by
  rw [updateFirst]

theorem tget_append_isSome {t : List (String × Toml)} {k : String} {v : Toml}
    (h : tget t k = some v) (r : List (String × Toml)) :
    tget (t ++ r) k = some v := by
  induction t with
  | nil => simp [tget] at h
  | cons kv rest ih =>
    rcases kv with ⟨k2, w⟩
    rw [tget_cons] at h
    rw [List.cons_append, tget_cons]
    by_cases hk : k2 = k
    · rwa [if_pos hk] at h ⊢
    · rw [if_neg hk] at h ⊢
      exact ih h

theorem tget_append_none {t : List (String × Toml)} {k : String}
    (h : tget t k = none) (r : List (String × Toml)) :
    tget (t ++ r) k = tget r k := by
  induction t with
  | nil => rfl
  | cons kv rest ih =>
    rcases kv with ⟨k2, w⟩
    rw [tget_cons] at h
    rw [List.cons_append, tget_cons]
    by_cases hk : k2 = k
    · rw [if_pos hk] at h
      simp at h
    · rw [if_neg hk] at h
      rw [if_neg hk]
      exact ih h

theorem tget_tretain_mem {known : List String} {k : String}
    (h : known.contains k = true) (t : List (String × Toml)) :
    tget (tretain known t) k = tget t k := by
  induction t with
  | nil => rfl
  | cons kv rest ih =>
    rcases kv with ⟨k2, w⟩
    unfold tretain at ih ⊢
    rw [List.filter_cons]
    by_cases hk : k2 = k
    · subst hk
      rw [if_pos (by simpa using h), tget_cons, tget_cons]
      simp [ih]
    · by_cases hm : known.contains k2 = true
      · rw [if_pos (by simpa using hm), tget_cons, tget_cons,
          if_neg hk, if_neg hk]
        exact ih
      · rw [if_neg (by simpa using hm), tget_cons, if_neg hk]
        exact ih

theorem tget_tretain_not {known : List String} {k : String}
    (h : known.contains k = false) (t : List (String × Toml)) :
    tget (tretain known t) k = none := by
  induction t with
  | nil => rfl
  | cons kv rest ih =>
    rcases kv with ⟨k2, w⟩
    unfold tretain at ih ⊢
    rw [List.filter_cons]
    by_cases hm : known.contains k2 = true
    · have hk : k2 ≠ k := by
        intro hkk
        subst hkk
        rw [hm] at h
        exact absurd h (by simp)
      rw [if_pos (by simpa using hm), tget_cons, if_neg hk]
      exact ih
    · rw [if_neg (by simpa using hm)]
      exact ih

theorem tget_updateFirst_self {t : List (String × Toml)} {k : String}
    {w : Toml} (h : tget t k = some w) (v : Toml) :
    tget (updateFirst t k v) k = some v := by
  induction t with
  | nil => simp [tget] at h
  | cons kv rest ih =>
    rcases kv with ⟨k2, u⟩
    rw [tget_cons] at h
    rw [updateFirst_cons]
    by_cases hk : k2 = k
    · rw [if_pos hk, tget_cons, if_pos hk]
    · rw [if_neg hk] at h
      rw [if_neg hk, tget_cons, if_neg hk]
      exact ih h

theorem tget_updateFirst_ne {t : List (String × Toml)} {k k2 : String}
    (h : k2 ≠ k) (v : Toml) :
    tget (updateFirst t k v) k2 = tget t k2 := by
  induction t with
  | nil => rfl
  | cons kv rest ih =>
    rcases kv with ⟨k3, u⟩
    rw [updateFirst_cons]
    by_cases hk : k3 = k
    · have hne : k3 ≠ k2 := by
        rw [hk]
        exact fun hkk => h hkk.symm
      rw [if_pos hk, tget_cons, tget_cons, if_neg hne, if_neg hne]
    · rw [if_neg hk, tget_cons, tget_cons]
      by_cases hk2 : k3 = k2
      · rw [if_pos hk2, if_pos hk2]
      · rw [if_neg hk2, if_neg hk2]
        exact ih

theorem updateFirst_tget_eq {t : List (String × Toml)} {k : String} {v : Toml}
    (h : tget t k = some v) : updateFirst t k v = t := by
  induction t with
  | nil => rfl
  | cons kv rest ih =>
    rcases kv with ⟨k2, u⟩
    rw [tget_cons] at h
    rw [updateFirst_cons]
    by_cases hk : k2 = k
    · rw [if_pos hk] at h
      rw [if_pos hk, Option.some.inj h]
    · rw [if_neg hk] at h
      rw [if_neg hk, ih h]

theorem updateFirst_none {t : List (String × Toml)} {k : String}
    (h : tget t k = none) (v : Toml) : updateFirst t k v = t := by
  induction t with
  | nil => rfl
  | cons kv rest ih =>
    rcases kv with ⟨k2, u⟩
    rw [tget_cons] at h
    rw [updateFirst_cons]
    by_cases hk : k2 = k
    · rw [if_pos hk] at h
      simp at h
    · rw [if_neg hk] at h
      rw [if_neg hk, ih h]

theorem ensureKey_of_contains {t : List (String × Toml)} {k : String}
    (h : containsKey t k = true) (v : Toml) : ensureKey t k v = t := by
  unfold ensureKey
  rw [h]
  rfl

theorem tget_ensureKey_self (t : List (String × Toml)) (k : String) (d : Toml) :
    tget (ensureKey t k d) k = some ((tget t k).getD d) := by
  unfold ensureKey containsKey
  rcases h : tget t k with _ | v
  · simp only [Option.isSome_none, Bool.false_eq_true, if_false, Option.getD_none]
    rw [tget_append_none h, tget_cons]
    simp
  · simp only [Option.isSome_some, if_true, Option.getD_some]
    exact h

theorem tget_ensureKey_ne {k2 k : String} (h : k2 ≠ k)
    (t : List (String × Toml)) (d : Toml) :
    tget (ensureKey t k d) k2 = tget t k2 := by
  unfold ensureKey
  by_cases hc : containsKey t k = true
  · rw [hc]
    rfl
  · rw [Bool.not_eq_true] at hc
    rw [hc]
    simp only [Bool.false_eq_true, if_false]
    rcases h2 : tget t k2 with _ | v
    · rw [tget_append_none h2, tget_cons]
      have hne : k ≠ k2 := fun hk => h hk.symm
      rw [if_neg hne]
      rfl
    · rw [tget_append_isSome h2]

theorem containsKey_ensureKey_cases {t : List (String × Toml)} {k k2 : String}
    {d : Toml} (h : containsKey (ensureKey t k d) k2 = true) :
    containsKey t k2 = true ∨ k2 = k := by
  by_cases hk : k2 = k
  · exact Or.inr hk
  · left
    unfold containsKey at h ⊢
    rwa [tget_ensureKey_ne hk] at h

theorem containsKey_ensureKey_mono {t : List (String × Toml)} {k2 : String}
    (h : containsKey t k2 = true) (k : String) (d : Toml) :
    containsKey (ensureKey t k d) k2 = true := by
  unfold ensureKey
  by_cases hc : containsKey t k = true
  · rwa [hc]
  · rw [Bool.not_eq_true] at hc
    rw [hc]
    simp only [Bool.false_eq_true, if_false]
    unfold containsKey at h ⊢
    rcases h2 : tget t k2 with _ | v
    · rw [h2] at h
      simp at h
    · rw [tget_append_isSome h2]
      rfl

theorem containsKey_updateFirst (t : List (String × Toml)) (k : String)
    (v : Toml) (k2 : String) :
    containsKey (updateFirst t k v) k2 = containsKey t k2 := by
  by_cases hk : k2 = k
  · subst hk
    unfold containsKey
    rcases h : tget t k2 with _ | w
    · rw [updateFirst_none h, h]
    · rw [tget_updateFirst_self h]
      rfl
  · unfold containsKey
    rw [tget_updateFirst_ne hk]

theorem coerceField_of_some {t : List (String × Toml)} {k : String} {v : Toml}
    (h : tget t k = some v) (ty : Toml → Bool) (d : Toml) :
    coerceField t k ty d = if ty v then t else updateFirst t k d := by
  unfold coerceField
  rw [h]

theorem coerceField_of_none {t : List (String × Toml)} {k : String}
    (h : tget t k = none) (ty : Toml → Bool) (d : Toml) :
    coerceField t k ty d = t := by
  unfold coerceField
  rw [h]

theorem tget_coerceField_self (t : List (String × Toml)) (k : String)
    (ty : Toml → Bool) (d : Toml) :
    tget (coerceField t k ty d) k =
      (tget t k).map (fun v => if ty v then v else d) := by
  rcases h : tget t k with _ | v
  · rw [coerceField_of_none h, h]
    rfl
  · rw [coerceField_of_some h]
    by_cases hty : ty v = true
    · rw [if_pos hty, h]
      simp [hty]
    · rw [if_neg hty, tget_updateFirst_self h]
      simp [hty]

theorem tget_coerceField_ne {k2 k : String} (h : k2 ≠ k)
    (t : List (String × Toml)) (ty : Toml → Bool) (d : Toml) :
    tget (coerceField t k ty d) k2 = tget t k2 := by
  rcases hv : tget t k with _ | v
  · rw [coerceField_of_none hv]
  · rw [coerceField_of_some hv]
    by_cases hty : ty v = true
    · rw [if_pos hty]
    · rw [if_neg hty, tget_updateFirst_ne h]

theorem coerceField_eq_self {t : List (String × Toml)} {k : String}
    {ty : Toml → Bool} {v : Toml} (h : tget t k = some v) (hty : ty v = true)
    (d : Toml) : coerceField t k ty d = t := by
  rw [coerceField_of_some h, if_pos hty]

theorem containsKey_coerceField (t : List (String × Toml)) (k : String)
    (ty : Toml → Bool) (d : Toml) (k2 : String) :
    containsKey (coerceField t k ty d) k2 = containsKey t k2 := by
  rcases hv : tget t k with _ | v
  · rw [coerceField_of_none hv]
  · rw [coerceField_of_some hv]
    by_cases hty : ty v = true
    · rw [if_pos hty]
    · rw [if_neg hty, containsKey_updateFirst]

theorem fixSection_of_table {t : List (String × Toml)} {k : String}
    {st : List (String × Toml)} (h : tget t k = some (.table st))
    (f : List (String × Toml) → List (String × Toml)) :
    fixSection t k f = updateFirst t k (.table (f st)) := by
  unfold fixSection
  rw [h]

theorem fixSection_of_none {t : List (String × Toml)} {k : String}
    (h : tget t k = none)
    (f : List (String × Toml) → List (String × Toml)) :
    fixSection t k f = t := by
  unfold fixSection
  rw [h]

theorem fixSection_of_not_table {t : List (String × Toml)} {k : String}
    {v : Toml} (h : tget t k = some v) (hv : v.isTable = false)
    (f : List (String × Toml) → List (String × Toml)) :
    fixSection t k f = t := by
  unfold fixSection
  rw [h]
  rcases v with s | n | b | st | _ <;> first
    | rfl
    | simp [Toml.isTable] at hv

theorem tget_fixSection_table {t : List (String × Toml)} {k : String}
    {st : List (String × Toml)} (h : tget t k = some (.table st))
    (f : List (String × Toml) → List (String × Toml)) :
    tget (fixSection t k f) k = some (.table (f st)) := by
  rw [fixSection_of_table h]
  exact tget_updateFirst_self h _

theorem tget_fixSection_ne {k2 k : String} (h : k2 ≠ k)
    (t : List (String × Toml))
    (f : List (String × Toml) → List (String × Toml)) :
    tget (fixSection t k f) k2 = tget t k2 := by
  rcases hv : tget t k with _ | v
  · rw [fixSection_of_none hv]
  · rcases v with s | n | b | st | _
    · rw [fixSection_of_not_table hv rfl]
    · rw [fixSection_of_not_table hv rfl]
    · rw [fixSection_of_not_table hv rfl]
    · rw [fixSection_of_table hv, tget_updateFirst_ne h]
    · rw [fixSection_of_not_table hv rfl]

theorem containsKey_fixSection (t : List (String × Toml)) (k : String)
    (f : List (String × Toml) → List (String × Toml)) (k2 : String) :
    containsKey (fixSection t k f) k2 = containsKey t k2 := by
  rcases hv : tget t k with _ | v
  · rw [fixSection_of_none hv]
  · rcases v with s | n | b | st | _
    · rw [fixSection_of_not_table hv rfl]
    · rw [fixSection_of_not_table hv rfl]
    · rw [fixSection_of_not_table hv rfl]
    · rw [fixSection_of_table hv, containsKey_updateFirst]
    · rw [fixSection_of_not_table hv rfl]

theorem mem_tretain {known : List String} {t : List (String × Toml)}
    {kv : String × Toml} (h : kv ∈ tretain known t) :
    known.contains kv.1 = true ∧ kv ∈ t := by
  unfold tretain at h
  have hm := List.mem_filter.mp h
  exact ⟨hm.2, hm.1⟩

theorem mem_ensureKey {t : List (String × Toml)} {k : String} {d : Toml}
    {kv : String × Toml} (h : kv ∈ ensureKey t k d) :
    kv ∈ t ∨ kv = (k, d) := by
  unfold ensureKey at h
  by_cases hc : containsKey t k = true
  · rw [hc] at h
    exact Or.inl h
  · rw [Bool.not_eq_true] at hc
    rw [hc] at h
    simp only [Bool.false_eq_true, if_false] at h
    rcases List.mem_append.mp h with h1 | h1
    · exact Or.inl h1
    · right
      simpa using h1

theorem mem_updateFirst {t : List (String × Toml)} {k : String} {v : Toml}
    {kv : String × Toml} (h : kv ∈ updateFirst t k v) :
    kv ∈ t ∨ kv = (k, v) := by
  induction t with
  | nil => simp [updateFirst] at h
  | cons kw rest ih =>
    rcases kw with ⟨k2, w⟩
    rw [updateFirst_cons] at h
    by_cases hk : k2 = k
    · rw [if_pos hk] at h
      rcases List.mem_cons.mp h with h1 | h1
      · right
        rw [h1, hk]
      · exact Or.inl (List.mem_cons_of_mem _ h1)
    · rw [if_neg hk] at h
      rcases List.mem_cons.mp h with h1 | h1
      · exact Or.inl (h1 ▸ List.mem_cons_self _ _)
      · rcases ih h1 with h2 | h2
        · exact Or.inl (List.mem_cons_of_mem _ h2)
        · exact Or.inr h2

theorem mem_coerceField {t : List (String × Toml)} {k : String}
    {ty : Toml → Bool} {d : Toml} {kv : String × Toml}
    (h : kv ∈ coerceField t k ty d) : kv ∈ t ∨ kv = (k, d) := by
  rcases hv : tget t k with _ | v
  · rw [coerceField_of_none hv] at h
    exact Or.inl h
  · rw [coerceField_of_some hv] at h
    by_cases hty : ty v = true
    · rw [if_pos hty] at h
      exact Or.inl h
    · rw [if_neg hty] at h
      exact mem_updateFirst h

theorem mem_fixSection {t : List (String × Toml)} {k : String}
    {f : List (String × Toml) → List (String × Toml)} {kv : String × Toml}
    (h : kv ∈ fixSection t k f) : kv ∈ t ∨ kv.1 = k := by
  rcases hv : tget t k with _ | v
  · rw [fixSection_of_none hv] at h
    exact Or.inl h
  · rcases v with s | n | b | st | _
    · rw [fixSection_of_not_table hv rfl] at h
      exact Or.inl h
    · rw [fixSection_of_not_table hv rfl] at h
      exact Or.inl h
    · rw [fixSection_of_not_table hv rfl] at h
      exact Or.inl h
    · rw [fixSection_of_table hv] at h
      rcases mem_updateFirst h with h1 | h1
      · exact Or.inl h1
      · right
        rw [h1]
    · rw [fixSection_of_not_table hv rfl] at h
      exact Or.inl h

theorem containsKey_tretain {known : List String} {t : List (String × Toml)}
    {k : String} (h : containsKey (tretain known t) k = true) :
    known.contains k = true := by
  rcases hc : known.contains k with _ | _
  · unfold containsKey at h
    rw [tget_tretain_not hc] at h
    simp at h
  · rfl

theorem ty_specFieldValue {ty : Toml → Bool} {d : Toml} (hd : ty d = true)
    (o : Option Toml) : ty (specFieldValue o ty d) = true := by
  rcases o with _ | v
  · exact hd
  · show ty (if ty v then v else d) = true
    by_cases hty : ty v = true
    · rw [if_pos hty]
      exact hty
    · rw [if_neg hty]
      exact hd

theorem fixRed_token (t : List (String × Toml)) :
    tget (fixRed t) "token" =
      some (specFieldValue (tget t "token") Toml.isStr
        (.str "placeholder_token")) := by
  unfold fixRed
  rw [tget_coerceField_ne (by decide), tget_coerceField_self,
    tget_ensureKey_ne (by decide), tget_ensureKey_self,
    tget_tretain_mem (by decide)]
  rcases tget t "token" with _ | v
  · rfl
  · rfl

theorem fixRed_shards (t : List (String × Toml)) :
    tget (fixRed t) "shards" =
      some (specFieldValue (tget t "shards") Toml.isInt (.int 1)) := by
  unfold fixRed
  rw [tget_coerceField_self, tget_coerceField_ne (by decide),
    tget_ensureKey_self, tget_ensureKey_ne (by decide),
    tget_tretain_mem (by decide)]
  rcases tget t "shards" with _ | v
  · rfl
  · rfl

theorem fixRed_keys {t : List (String × Toml)} {kv : String × Toml}
    (h : kv ∈ fixRed t) : kv.1 = "token" ∨ kv.1 = "shards" := by
  unfold fixRed at h
  rcases mem_coerceField h with h1 | h1
  · rcases mem_coerceField h1 with h2 | h2
    · rcases mem_ensureKey h2 with h3 | h3
      · rcases mem_ensureKey h3 with h4 | h4
        · have hc := (mem_tretain h4).1
          have hm : kv.1 ∈ ["token", "shards"] := by simpa using hc
          simpa using hm
        · subst h4
          exact Or.inl rfl
      · subst h3
        exact Or.inr rfl
    · subst h2
      exact Or.inl rfl
  · subst h1
    exact Or.inr rfl

theorem fixRed_idem (t : List (String × Toml)) :
    fixRed (fixRed t) = fixRed t := by
  have htok := fixRed_token t
  have hsh := fixRed_shards t
  set R := fixRed t with hR
  have hret : tretain ["token", "shards"] R = R := by
    unfold tretain
    apply List.filter_eq_self.mpr
    intro kv hkv
    rw [hR] at hkv
    rcases fixRed_keys hkv with h | h <;>
      · simp only [h]
        decide
  have hct : containsKey R "token" = true := by
    unfold containsKey
    rw [htok]
    rfl
  have hcs : containsKey R "shards" = true := by
    unfold containsKey
    rw [hsh]
    rfl
  have hstr : Toml.isStr (specFieldValue (tget t "token") Toml.isStr
      (.str "placeholder_token")) = true := ty_specFieldValue rfl _
  have hint : Toml.isInt (specFieldValue (tget t "shards") Toml.isInt
      (.int 1)) = true := ty_specFieldValue rfl _
  unfold fixRed
  rw [hret, ensureKey_of_contains hct, ensureKey_of_contains hcs,
    coerceField_eq_self htok hstr, coerceField_eq_self hsh hint]

theorem fixLogging_level (t : List (String × Toml)) :
    tget (fixLogging t) "log-level" =
      some (specFieldValue (tget t "log-level") Toml.isStr (.str "info")) := by
  unfold fixLogging
  rw [tget_coerceField_ne (by decide), tget_coerceField_ne (by decide),
    tget_coerceField_self, tget_ensureKey_ne (by decide),
    tget_ensureKey_ne (by decide), tget_ensureKey_self,
    tget_tretain_mem (by decide)]
  rcases tget t "log-level" with _ | v
  · rfl
  · rfl

theorem fixLogging_filter (t : List (String × Toml)) :
    tget (fixLogging t) "log-filter" =
      some (specFieldValue (tget t "log-filter") Toml.isStr (.str "Both")) := by
  unfold fixLogging
  rw [tget_coerceField_ne (by decide), tget_coerceField_self,
    tget_coerceField_ne (by decide), tget_ensureKey_ne (by decide),
    tget_ensureKey_self, tget_ensureKey_ne (by decide),
    tget_tretain_mem (by decide)]
  rcases tget t "log-filter" with _ | v
  · rfl
  · rfl

theorem fixLogging_directory (t : List (String × Toml)) :
    tget (fixLogging t) "directory" =
      some (specFieldValue (tget t "directory") Toml.isStr (.str "logs")) := by
  unfold fixLogging
  rw [tget_coerceField_self, tget_coerceField_ne (by decide),
    tget_coerceField_ne (by decide), tget_ensureKey_self,
    tget_ensureKey_ne (by decide), tget_ensureKey_ne (by decide),
    tget_tretain_mem (by decide)]
  rcases tget t "directory" with _ | v
  · rfl
  · rfl

theorem fixLogging_keys {t : List (String × Toml)} {kv : String × Toml}
    (h : kv ∈ fixLogging t) :
    kv.1 = "log-level" ∨ kv.1 = "log-filter" ∨ kv.1 = "directory" := by
  unfold fixLogging at h
  rcases mem_coerceField h with h1 | h1
  · rcases mem_coerceField h1 with h2 | h2
    · rcases mem_coerceField h2 with h3 | h3
      · rcases mem_ensureKey h3 with h4 | h4
        · rcases mem_ensureKey h4 with h5 | h5
          · rcases mem_ensureKey h5 with h6 | h6
            · have hc := (mem_tretain h6).1
              have hm : kv.1 ∈ ["log-level", "log-filter", "directory"] := by
                simpa using hc
              simpa using hm
            · subst h6
              exact Or.inl rfl
          · subst h5
            exact Or.inr (Or.inl rfl)
        · subst h4
          exact Or.inr (Or.inr rfl)
      · subst h3
        exact Or.inl rfl
    · subst h2
      exact Or.inr (Or.inl rfl)
  · subst h1
    exact Or.inr (Or.inr rfl)

theorem fixLogging_idem (t : List (String × Toml)) :
    fixLogging (fixLogging t) = fixLogging t := by
  have hlv := fixLogging_level t
  have hlf := fixLogging_filter t
  have hld := fixLogging_directory t
  set R := fixLogging t with hR
  have hret : tretain ["log-level", "log-filter", "directory"] R = R := by
    unfold tretain
    apply List.filter_eq_self.mpr
    intro kv hkv
    rw [hR] at hkv
    rcases fixLogging_keys hkv with h | h | h <;>
      · simp only [h]
        decide
  have hclv : containsKey R "log-level" = true := by
    unfold containsKey
    rw [hlv]
    rfl
  have hclf : containsKey R "log-filter" = true := by
    unfold containsKey
    rw [hlf]
    rfl
  have hcld : containsKey R "directory" = true := by
    unfold containsKey
    rw [hld]
    rfl
  have hstrv : Toml.isStr (specFieldValue (tget t "log-level") Toml.isStr
      (.str "info")) = true := ty_specFieldValue rfl _
  have hstrf : Toml.isStr (specFieldValue (tget t "log-filter") Toml.isStr
      (.str "Both")) = true := ty_specFieldValue rfl _
  have hstrd : Toml.isStr (specFieldValue (tget t "directory") Toml.isStr
      (.str "logs")) = true := ty_specFieldValue rfl _
  unfold fixLogging
  rw [hret, ensureKey_of_contains hclv, ensureKey_of_contains hclf,
    ensureKey_of_contains hcld, coerceField_eq_self hlv hstrv,
    coerceField_eq_self hlf hstrf, coerceField_eq_self hld hstrd]

theorem fixLogrotate_frequency (t : List (String × Toml)) :
    tget (fixLogrotate t) "frequency" =
      some (specFieldValue (tget t "frequency") Toml.isStr (.str "7d")) := by
  unfold fixLogrotate
  rw [tget_coerceField_self, tget_ensureKey_self, tget_tretain_mem (by decide)]
  rcases tget t "frequency" with _ | v
  · rfl
  · rfl

theorem fixLogrotate_keys {t : List (String × Toml)} {kv : String × Toml}
    (h : kv ∈ fixLogrotate t) : kv.1 = "frequency" := by
  unfold fixLogrotate at h
  rcases mem_coerceField h with h1 | h1
  · rcases mem_ensureKey h1 with h2 | h2
    · have hc := (mem_tretain h2).1
      have hm : kv.1 ∈ ["frequency"] := by simpa using hc
      simpa using hm
    · subst h2
      rfl
  · subst h1
    rfl

theorem fixLogrotate_idem (t : List (String × Toml)) :
    fixLogrotate (fixLogrotate t) = fixLogrotate t := by
  have hfr := fixLogrotate_frequency t
  set R := fixLogrotate t with hR
  have hret : tretain ["frequency"] R = R := by
    unfold tretain
    apply List.filter_eq_self.mpr
    intro kv hkv
    rw [hR] at hkv
    have h := fixLogrotate_keys hkv
    simp only [h]
    decide
  have hcf : containsKey R "frequency" = true := by
    unfold containsKey
    rw [hfr]
    rfl
  have hstr : Toml.isStr (specFieldValue (tget t "frequency") Toml.isStr
      (.str "7d")) = true := ty_specFieldValue rfl _
  unfold fixLogrotate
  rw [hret, ensureKey_of_contains hcf, coerceField_eq_self hfr hstr]

theorem mem_of_tget {t : List (String × Toml)} {k : String} {v : Toml}
    (h : tget t k = some v) : (k, v) ∈ t := by
  induction t with
  | nil => simp [tget] at h
  | cons kw rest ih =>
    rcases kw with ⟨k2, w⟩
    rw [tget_cons] at h
    by_cases hk : k2 = k
    · rw [if_pos hk] at h
      have : (k, v) = (k2, w) := by
        rw [hk, Option.some.inj h]
      rw [this]
      exact List.mem_cons_self _ _
    · rw [if_neg hk] at h
      exact List.mem_cons_of_mem _ (ih h)

theorem sanitized_red_of_table {t rt : List (String × Toml)}
    (h : tget t "red" = some (.table rt)) :
    tget (sanitizedTable t) "red" = some (.table (fixRed rt)) := by
  unfold sanitizedTable
  rw [tget_fixSection_ne (by decide), tget_ensureKey_ne (by decide),
    tget_fixSection_ne (by decide), tget_ensureKey_ne (by decide)]
  have h0 : tget (tretain ["red", "logging", "logrotate"] t) "red" =
      some (.table rt) := by
    rw [tget_tretain_mem (by decide)]
    exact h
  have h1 : tget (ensureKey (tretain ["red", "logging", "logrotate"] t)
      "red" (.table [])) "red" = some (.table rt) := by
    rw [tget_ensureKey_self, h0]
    rfl
  rw [tget_fixSection_table h1]

theorem sanitized_red_of_none {t : List (String × Toml)}
    (h : tget t "red" = none) :
    tget (sanitizedTable t) "red" = some (.table (fixRed [])) := by
  unfold sanitizedTable
  rw [tget_fixSection_ne (by decide), tget_ensureKey_ne (by decide),
    tget_fixSection_ne (by decide), tget_ensureKey_ne (by decide)]
  have h0 : tget (tretain ["red", "logging", "logrotate"] t) "red" = none := by
    rw [tget_tretain_mem (by decide)]
    exact h
  have h1 : tget (ensureKey (tretain ["red", "logging", "logrotate"] t)
      "red" (.table [])) "red" = some (.table []) := by
    rw [tget_ensureKey_self, h0]
    rfl
  rw [tget_fixSection_table h1]

theorem sanitized_red_of_not_table {t : List (String × Toml)} {v : Toml}
    (h : tget t "red" = some v) (hv : v.isTable = false) :
    tget (sanitizedTable t) "red" = some v := by
  unfold sanitizedTable
  rw [tget_fixSection_ne (by decide), tget_ensureKey_ne (by decide),
    tget_fixSection_ne (by decide), tget_ensureKey_ne (by decide)]
  have h0 : tget (tretain ["red", "logging", "logrotate"] t) "red" = some v := by
    rw [tget_tretain_mem (by decide)]
    exact h
  have h1 : tget (ensureKey (tretain ["red", "logging", "logrotate"] t)
      "red" (.table [])) "red" = some v := by
    rw [tget_ensureKey_self, h0]
    rfl
  rw [fixSection_of_not_table h1 hv]
  exact h1

theorem sanitized_logging_of_table {t lt : List (String × Toml)}
    (h : tget t "logging" = some (.table lt)) :
    tget (sanitizedTable t) "logging" = some (.table (fixLogging lt)) := by
  unfold sanitizedTable
  rw [tget_fixSection_ne (by decide), tget_ensureKey_ne (by decide)]
  have h0 : tget (fixSection (ensureKey (tretain ["red", "logging", "logrotate"] t)
      "red" (.table [])) "red" fixRed) "logging" = some (.table lt) := by
    rw [tget_fixSection_ne (by decide), tget_ensureKey_ne (by decide),
      tget_tretain_mem (by decide)]
    exact h
  have h1 : tget (ensureKey (fixSection (ensureKey
      (tretain ["red", "logging", "logrotate"] t) "red" (.table []))
      "red" fixRed) "logging" (.table [])) "logging" = some (.table lt) := by
    rw [tget_ensureKey_self, h0]
    rfl
  rw [tget_fixSection_table h1]

theorem sanitized_logging_of_none {t : List (String × Toml)}
    (h : tget t "logging" = none) :
    tget (sanitizedTable t) "logging" = some (.table (fixLogging [])) := by
  unfold sanitizedTable
  rw [tget_fixSection_ne (by decide), tget_ensureKey_ne (by decide)]
  have h0 : tget (fixSection (ensureKey (tretain ["red", "logging", "logrotate"] t)
      "red" (.table [])) "red" fixRed) "logging" = none := by
    rw [tget_fixSection_ne (by decide), tget_ensureKey_ne (by decide),
      tget_tretain_mem (by decide)]
    exact h
  have h1 : tget (ensureKey (fixSection (ensureKey
      (tretain ["red", "logging", "logrotate"] t) "red" (.table []))
      "red" fixRed) "logging" (.table [])) "logging" = some (.table []) := by
    rw [tget_ensureKey_self, h0]
    rfl
  rw [tget_fixSection_table h1]

theorem sanitized_logging_of_not_table {t : List (String × Toml)} {v : Toml}
    (h : tget t "logging" = some v) (hv : v.isTable = false) :
    tget (sanitizedTable t) "logging" = some v := by
  unfold sanitizedTable
  rw [tget_fixSection_ne (by decide), tget_ensureKey_ne (by decide)]
  have h0 : tget (fixSection (ensureKey (tretain ["red", "logging", "logrotate"] t)
      "red" (.table [])) "red" fixRed) "logging" = some v := by
    rw [tget_fixSection_ne (by decide), tget_ensureKey_ne (by decide),
      tget_tretain_mem (by decide)]
    exact h
  have h1 : tget (ensureKey (fixSection (ensureKey
      (tretain ["red", "logging", "logrotate"] t) "red" (.table []))
      "red" fixRed) "logging" (.table [])) "logging" = some v := by
    rw [tget_ensureKey_self, h0]
    rfl
  rw [fixSection_of_not_table h1 hv]
  exact h1

theorem sanitized_logrotate_of_table {t rt : List (String × Toml)}
    (h : tget t "logrotate" = some (.table rt)) :
    tget (sanitizedTable t) "logrotate" = some (.table (fixLogrotate rt)) := by
  unfold sanitizedTable
  have h0 : tget (fixSection (ensureKey (fixSection (ensureKey
      (tretain ["red", "logging", "logrotate"] t) "red" (.table []))
      "red" fixRed) "logging" (.table [])) "logging" fixLogging) "logrotate" =
      some (.table rt) := by
    rw [tget_fixSection_ne (by decide), tget_ensureKey_ne (by decide),
      tget_fixSection_ne (by decide), tget_ensureKey_ne (by decide),
      tget_tretain_mem (by decide)]
    exact h
  have h1 : tget (ensureKey (fixSection (ensureKey (fixSection (ensureKey
      (tretain ["red", "logging", "logrotate"] t) "red" (.table []))
      "red" fixRed) "logging" (.table [])) "logging" fixLogging)
      "logrotate" (.table [])) "logrotate" = some (.table rt) := by
    rw [tget_ensureKey_self, h0]
    rfl
  rw [tget_fixSection_table h1]

theorem sanitized_logrotate_of_none {t : List (String × Toml)}
    (h : tget t "logrotate" = none) :
    tget (sanitizedTable t) "logrotate" = some (.table (fixLogrotate [])) := by
  unfold sanitizedTable
  have h0 : tget (fixSection (ensureKey (fixSection (ensureKey
      (tretain ["red", "logging", "logrotate"] t) "red" (.table []))
      "red" fixRed) "logging" (.table [])) "logging" fixLogging) "logrotate" =
      none := by
    rw [tget_fixSection_ne (by decide), tget_ensureKey_ne (by decide),
      tget_fixSection_ne (by decide), tget_ensureKey_ne (by decide),
      tget_tretain_mem (by decide)]
    exact h
  have h1 : tget (ensureKey (fixSection (ensureKey (fixSection (ensureKey
      (tretain ["red", "logging", "logrotate"] t) "red" (.table []))
      "red" fixRed) "logging" (.table [])) "logging" fixLogging)
      "logrotate" (.table [])) "logrotate" = some (.table []) := by
    rw [tget_ensureKey_self, h0]
    rfl
  rw [tget_fixSection_table h1]

theorem sanitized_logrotate_of_not_table {t : List (String × Toml)} {v : Toml}
    (h : tget t "logrotate" = some v) (hv : v.isTable = false) :
    tget (sanitizedTable t) "logrotate" = some v := by
  unfold sanitizedTable
  have h0 : tget (fixSection (ensureKey (fixSection (ensureKey
      (tretain ["red", "logging", "logrotate"] t) "red" (.table []))
      "red" fixRed) "logging" (.table [])) "logging" fixLogging) "logrotate" =
      some v := by
    rw [tget_fixSection_ne (by decide), tget_ensureKey_ne (by decide),
      tget_fixSection_ne (by decide), tget_ensureKey_ne (by decide),
      tget_tretain_mem (by decide)]
    exact h
  have h1 : tget (ensureKey (fixSection (ensureKey (fixSection (ensureKey
      (tretain ["red", "logging", "logrotate"] t) "red" (.table []))
      "red" fixRed) "logging" (.table [])) "logging" fixLogging)
      "logrotate" (.table [])) "logrotate" = some v := by
    rw [tget_ensureKey_self, h0]
    rfl
  rw [fixSection_of_not_table h1 hv]
  exact h1

theorem sanitizedTable_keys {t : List (String × Toml)} {kv : String × Toml}
    (h : kv ∈ sanitizedTable t) :
    kv.1 = "red" ∨ kv.1 = "logging" ∨ kv.1 = "logrotate" := by
  unfold sanitizedTable at h
  rcases mem_fixSection h with h1 | h1
  · rcases mem_ensureKey h1 with h2 | h2
    · rcases mem_fixSection h2 with h3 | h3
      · rcases mem_ensureKey h3 with h4 | h4
        · rcases mem_fixSection h4 with h5 | h5
          · rcases mem_ensureKey h5 with h6 | h6
            · have hc := (mem_tretain h6).1
              have hm : kv.1 ∈ ["red", "logging", "logrotate"] := by
                simpa using hc
              simpa using hm
            · subst h6
              exact Or.inl rfl
          · exact Or.inl h5
        · subst h4
          exact Or.inr (Or.inl rfl)
      · exact Or.inr (Or.inl h3)
    · subst h2
      exact Or.inr (Or.inr rfl)
  · exact Or.inr (Or.inr h1)

theorem sanitized_red_shape (t : List (String × Toml)) :
    (∃ rt0, tget (sanitizedTable t) "red" = some (.table (fixRed rt0))) ∨
    (∃ v, tget (sanitizedTable t) "red" = some v ∧ v.isTable = false) := by
  rcases hv : tget t "red" with _ | v
  · exact Or.inl ⟨[], sanitized_red_of_none hv⟩
  · rcases v with s | n | b | rt | _
    · exact Or.inr ⟨_, sanitized_red_of_not_table hv rfl, rfl⟩
    · exact Or.inr ⟨_, sanitized_red_of_not_table hv rfl, rfl⟩
    · exact Or.inr ⟨_, sanitized_red_of_not_table hv rfl, rfl⟩
    · exact Or.inl ⟨rt, sanitized_red_of_table hv⟩
    · exact Or.inr ⟨_, sanitized_red_of_not_table hv rfl, rfl⟩

theorem sanitized_logging_shape (t : List (String × Toml)) :
    (∃ lt0, tget (sanitizedTable t) "logging" =
      some (.table (fixLogging lt0))) ∨
    (∃ v, tget (sanitizedTable t) "logging" = some v ∧ v.isTable = false) := by
  rcases hv : tget t "logging" with _ | v
  · exact Or.inl ⟨[], sanitized_logging_of_none hv⟩
  · rcases v with s | n | b | lt | _
    · exact Or.inr ⟨_, sanitized_logging_of_not_table hv rfl, rfl⟩
    · exact Or.inr ⟨_, sanitized_logging_of_not_table hv rfl, rfl⟩
    · exact Or.inr ⟨_, sanitized_logging_of_not_table hv rfl, rfl⟩
    · exact Or.inl ⟨lt, sanitized_logging_of_table hv⟩
    · exact Or.inr ⟨_, sanitized_logging_of_not_table hv rfl, rfl⟩

theorem sanitized_logrotate_shape (t : List (String × Toml)) :
    (∃ rt0, tget (sanitizedTable t) "logrotate" =
      some (.table (fixLogrotate rt0))) ∨
    (∃ v, tget (sanitizedTable t) "logrotate" = some v ∧ v.isTable = false) := by
  rcases hv : tget t "logrotate" with _ | v
  · exact Or.inl ⟨[], sanitized_logrotate_of_none hv⟩
  · rcases v with s | n | b | rt | _
    · exact Or.inr ⟨_, sanitized_logrotate_of_not_table hv rfl, rfl⟩
    · exact Or.inr ⟨_, sanitized_logrotate_of_not_table hv rfl, rfl⟩
    · exact Or.inr ⟨_, sanitized_logrotate_of_not_table hv rfl, rfl⟩
    · exact Or.inl ⟨rt, sanitized_logrotate_of_table hv⟩
    · exact Or.inr ⟨_, sanitized_logrotate_of_not_table hv rfl, rfl⟩

theorem sanitizedTable_idem (t : List (String × Toml)) :
    sanitizedTable (sanitizedTable t) = sanitizedTable t := by
  have hshr := sanitized_red_shape t
  have hshl := sanitized_logging_shape t
  have hsho := sanitized_logrotate_shape t
  set S := sanitizedTable t with hS
  have hret : tretain ["red", "logging", "logrotate"] S = S := by
    unfold tretain
    apply List.filter_eq_self.mpr
    intro kv hkv
    rw [hS] at hkv
    rcases sanitizedTable_keys hkv with h | h | h <;>
      · simp only [h]
        decide
  have hcr : containsKey S "red" = true := by
    unfold containsKey
    rcases hshr with ⟨rt0, h⟩ | ⟨v, h, -⟩ <;> rw [h] <;> rfl
  have hcl : containsKey S "logging" = true := by
    unfold containsKey
    rcases hshl with ⟨lt0, h⟩ | ⟨v, h, -⟩ <;> rw [h] <;> rfl
  have hco : containsKey S "logrotate" = true := by
    unfold containsKey
    rcases hsho with ⟨rt0, h⟩ | ⟨v, h, -⟩ <;> rw [h] <;> rfl
  have hfr : fixSection S "red" fixRed = S := by
    rcases hshr with ⟨rt0, h⟩ | ⟨v, h, hv⟩
    · rw [fixSection_of_table h, fixRed_idem]
      exact updateFirst_tget_eq h
    · exact fixSection_of_not_table h hv _
  have hfl : fixSection S "logging" fixLogging = S := by
    rcases hshl with ⟨lt0, h⟩ | ⟨v, h, hv⟩
    · rw [fixSection_of_table h, fixLogging_idem]
      exact updateFirst_tget_eq h
    · exact fixSection_of_not_table h hv _
  have hfo : fixSection S "logrotate" fixLogrotate = S := by
    rcases hsho with ⟨rt0, h⟩ | ⟨v, h, hv⟩
    · rw [fixSection_of_table h, fixLogrotate_idem]
      exact updateFirst_tget_eq h
    · exact fixSection_of_not_table h hv _
  show sanitizedTable S = S
  unfold sanitizedTable
  rw [hret, ensureKey_of_contains hcr, hfr, ensureKey_of_contains hcl, hfl,
    ensureKey_of_contains hco, hfo]

/-- Claim C6 counterexample: with a real token, a config whose `log_level` is
`"error"` (or `"WARN"`) makes `validate` exit with an error — the claim said
these values pass validation. -/
theorem c6_counterexample :
    Config.validate ⟨⟨"real_token", 1⟩, ⟨"error", "Both", "logs"⟩, ⟨"7d"⟩⟩ =
      ValidateOutcome.exitBadLogLevel ∧
    Config.validate ⟨⟨"real_token", 1⟩, ⟨"WARN", "Both", "logs"⟩, ⟨"7d"⟩⟩ =
      ValidateOutcome.exitBadLogLevel := by
  constructor
  · rfl
  · rfl

/-- Claim C6 (amended): `Config::validate` accepts a `log_level` among
`{info, debug, trace}` compared case-insensitively (given a non-placeholder
token and a recognised `log_filter`); any other `log_level` — including
`error` and `warn` — makes it emit an error and terminate the process. -/
theorem c6_log_level_validation (c : Config)
    (htok : c.red.token ≠ "placeholder_token") :
    ((rustToLower c.logging.log_level.data = "info".data ∨
      rustToLower c.logging.log_level.data = "debug".data ∨
      rustToLower c.logging.log_level.data = "trace".data) →
      (rustToLower c.logging.log_filter.data = "internal".data ∨
       rustToLower c.logging.log_filter.data = "external".data ∨
       rustToLower c.logging.log_filter.data = "both".data) →
      Config.validate c = .ok) ∧
    (¬(rustToLower c.logging.log_level.data = "info".data ∨
       rustToLower c.logging.log_level.data = "debug".data ∨
       rustToLower c.logging.log_level.data = "trace".data) →
      Config.validate c = .exitBadLogLevel) := by
  unfold Config.validate
  rw [if_neg htok]
  constructor
  · intro h1 h2
    rw [if_pos h1, if_pos h2]
  · intro h1
    rw [if_neg h1]

/-- Witness for C6 (amended): `"Info"` passes case-insensitively; `"warn"`
exits. -/
theorem c6_log_level_validation_witness :
    Config.validate ⟨⟨"s3cret", 1⟩, ⟨"Info", "Both", "logs"⟩, ⟨"7d"⟩⟩ =
      ValidateOutcome.ok ∧
    Config.validate ⟨⟨"s3cret", 1⟩, ⟨"warn", "Both", "logs"⟩, ⟨"7d"⟩⟩ =
      ValidateOutcome.exitBadLogLevel :=
  ⟨(c6_log_level_validation ⟨⟨"s3cret", 1⟩, ⟨"Info", "Both", "logs"⟩, ⟨"7d"⟩⟩
      (by decide)).1 (by decide) (by decide),
   (c6_log_level_validation ⟨⟨"s3cret", 1⟩, ⟨"warn", "Both", "logs"⟩, ⟨"7d"⟩⟩
      (by decide)).2 (by decide)⟩

/-- Claim C7: one load rewrites the document so that no top-level key lies
outside the known sections and no key within a section's table lies outside
that section's known fields, while every known field is mapped by the repair
rule: a present, well-typed value is kept verbatim, and only missing or
ill-typed fields are replaced by their defaults. -/
theorem c7_document_rewrite (t : List (String × Toml)) :
    ∃ t', sanitize_document (.table t) = .ok (.table t') ∧
      (∀ k, containsKey t' k = true →
        (k = "red" ∨ k = "logging" ∨ k = "logrotate")) ∧
      (∀ st, tget t' "red" = some (.table st) →
        ∀ k, containsKey st k = true → (k = "token" ∨ k = "shards")) ∧
      (∀ st, tget t' "logging" = some (.table st) →
        ∀ k, containsKey st k = true →
          (k = "log-level" ∨ k = "log-filter" ∨ k = "directory")) ∧
      (∀ st, tget t' "logrotate" = some (.table st) →
        ∀ k, containsKey st k = true → k = "frequency") ∧
      (∀ rt, tget t "red" = some (.table rt) →
        ∃ rt', tget t' "red" = some (.table rt') ∧
          tget rt' "token" = some (specFieldValue (tget rt "token")
            Toml.isStr (.str "placeholder_token")) ∧
          tget rt' "shards" = some (specFieldValue (tget rt "shards")
            Toml.isInt (.int 1))) ∧
      (∀ lt, tget t "logging" = some (.table lt) →
        ∃ lt', tget t' "logging" = some (.table lt') ∧
          tget lt' "log-level" = some (specFieldValue (tget lt "log-level")
            Toml.isStr (.str "info")) ∧
          tget lt' "log-filter" = some (specFieldValue (tget lt "log-filter")
            Toml.isStr (.str "Both")) ∧
          tget lt' "directory" = some (specFieldValue (tget lt "directory")
            Toml.isStr (.str "logs"))) ∧
      (∀ rt, tget t "logrotate" = some (.table rt) →
        ∃ rt', tget t' "logrotate" = some (.table rt') ∧
          tget rt' "frequency" = some (specFieldValue (tget rt "frequency")
            Toml.isStr (.str "7d"))) := by
  refine ⟨sanitizedTable t, rfl, ?_, ?_, ?_, ?_, ?_, ?_, ?_⟩
  · intro k hk
    unfold containsKey at hk
    rcases hv : tget (sanitizedTable t) k with _ | v
    · rw [hv] at hk
      simp at hk
    · have hm := sanitizedTable_keys (mem_of_tget hv)
      simpa using hm
  · intro st hst k hk
    rcases sanitized_red_shape t with ⟨rt0, h⟩ | ⟨v, h, hv⟩
    · rw [h] at hst
      have hst3 : fixRed rt0 = st := by
        have := Option.some.inj hst
        injection this
      rw [← hst3] at hk
      unfold containsKey at hk
      rcases hvk : tget (fixRed rt0) k with _ | w
      · rw [hvk] at hk
        simp at hk
      · have hm := fixRed_keys (mem_of_tget hvk)
        simpa using hm
    · rw [h] at hst
      have hveq := Option.some.inj hst
      rw [hveq] at hv
      simp [Toml.isTable] at hv
  · intro st hst k hk
    rcases sanitized_logging_shape t with ⟨lt0, h⟩ | ⟨v, h, hv⟩
    · rw [h] at hst
      have hst3 : fixLogging lt0 = st := by
        have := Option.some.inj hst
        injection this
      rw [← hst3] at hk
      unfold containsKey at hk
      rcases hvk : tget (fixLogging lt0) k with _ | w
      · rw [hvk] at hk
        simp at hk
      · have hm := fixLogging_keys (mem_of_tget hvk)
        simpa using hm
    · rw [h] at hst
      have hveq := Option.some.inj hst
      rw [hveq] at hv
      simp [Toml.isTable] at hv
  · intro st hst k hk
    rcases sanitized_logrotate_shape t with ⟨rt0, h⟩ | ⟨v, h, hv⟩
    · rw [h] at hst
      have hst3 : fixLogrotate rt0 = st := by
        have := Option.some.inj hst
        injection this
      rw [← hst3] at hk
      unfold containsKey at hk
      rcases hvk : tget (fixLogrotate rt0) k with _ | w
      · rw [hvk] at hk
        simp at hk
      · have hm := fixLogrotate_keys (mem_of_tget hvk)
        simpa using hm
    · rw [h] at hst
      have hveq := Option.some.inj hst
      rw [hveq] at hv
      simp [Toml.isTable] at hv
  · intro rt hrt
    exact ⟨fixRed rt, sanitized_red_of_table hrt, fixRed_token rt,
      fixRed_shards rt⟩
  · intro lt hlt
    exact ⟨fixLogging lt, sanitized_logging_of_table hlt, fixLogging_level lt,
      fixLogging_filter lt, fixLogging_directory lt⟩
  · intro rt hrt
    exact ⟨fixLogrotate rt, sanitized_logrotate_of_table hrt,
      fixLogrotate_frequency rt⟩

/-- Witness for C7: the spec's unknown-key scenario — a document with an
unknown top-level section `weird` and an unknown key `bogus` under `red`
loses both, while `token = "x"` and `shards = 2` survive verbatim. -/
theorem c7_document_rewrite_witness :
    ∃ t', sanitize_document (.table [("red", .table [("token", .str "x"),
        ("shards", .int 2), ("bogus", .int 3)]),
      ("weird", .table [("k", .int 1)])]) = .ok (.table t') ∧
      containsKey t' "weird" = false ∧
      ∃ rt', tget t' "red" = some (.table rt') ∧
        tget rt' "token" = some (.str "x") ∧
        tget rt' "shards" = some (.int 2) ∧
        containsKey rt' "bogus" = false := by
  obtain ⟨t', hok, hsec, hbr, -, -, hred, -, -⟩ := c7_document_rewrite
    [("red", .table [("token", .str "x"), ("shards", .int 2),
      ("bogus", .int 3)]), ("weird", .table [("k", .int 1)])]
  obtain ⟨rt', h1, h2, h3⟩ := hred
    [("token", .str "x"), ("shards", .int 2), ("bogus", .int 3)] rfl
  refine ⟨t', hok, ?_, rt', h1, ?_, ?_, ?_⟩
  · rcases hw : containsKey t' "weird" with _ | _
    · rfl
    · rcases hsec "weird" hw with h | h | h <;> exact absurd h (by decide)
  · rw [h2]
    rfl
  · rw [h3]
    rfl
  · rcases hw : containsKey rt' "bogus" with _ | _
    · rfl
    · rcases hbr rt' h1 "bogus" hw with h | h <;> exact absurd h (by decide)

/-- Claim C9: loading twice is idempotent on disk — the sanitised document a
load writes back is a fixed point of the rewrite, so the second load leaves
the file byte-identical (serialisation of the value is canonical and
deterministic). -/
theorem c9_load_idempotent (root out : Toml)
    (h : sanitize_document root = .ok out) :
    sanitize_document out = .ok out := by
  rcases root with s | n | b | t | _
  · simp [sanitize_document] at h
  · simp [sanitize_document] at h
  · simp [sanitize_document] at h
  · have hh : (Except.ok (Toml.table (sanitizedTable t)) :
        Except String Toml) = .ok out := h
    have hout : Toml.table (sanitizedTable t) = out := Except.ok.inj hh
    rw [← hout]
    show (Except.ok (Toml.table (sanitizedTable (sanitizedTable t))) :
      Except String Toml) = .ok (.table (sanitizedTable t))
    rw [sanitizedTable_idem]
  · simp [sanitize_document] at h

/-- Witness for C9: the sanitised form of a document with an unknown section
is a fixed point of a second load. -/
theorem c9_load_idempotent_witness :
    ∃ out, sanitize_document (.table [("red", .table [("token", .str "x")]),
      ("junk", .int 5)]) = .ok out ∧ sanitize_document out = .ok out := by
  refine ⟨.table (sanitizedTable [("red", .table [("token", .str "x")]),
    ("junk", .int 5)]), rfl, ?_⟩
  exact c9_load_idempotent (.table [("red", .table [("token", .str "x")]),
    ("junk", .int 5)]) _ rfl

end Red
